import Mathlib

/-!
# appengine-ssr: server side rendering middleware

A shallow embedding of `ssr.go`, `cache.go`, `cache_none.go` and `cache_memcache.go`.

Go strings and byte slices are byte sequences.  They are represented by Lean strings in
which every character stands for one byte (its code point is the byte value); all string
constants of the source are ASCII, where the two readings coincide.

The external collaborators (Go's `net/url` and `net/http`, the user agent parser, the
memcache service, the urlfetch client and the App Engine log) are not part of the
repository.  `net/url` and the `http.ResponseWriter` contract are transcribed from the Go
standard library; the others are parameters of the model.
-/

namespace ssr

/-! ## Go standard library: `net/url` -/

namespace url

/-- Go `ishex`: the byte is a hexadecimal digit. -/
def ishex (c : Char) : Bool :=
  ('0' ≤ c && c ≤ '9') || ('a' ≤ c && c ≤ 'f') || ('A' ≤ c && c ≤ 'F')

/-- Go `unhex`: the value of a hexadecimal digit. -/
def unhex (c : Char) : Nat :=
  if '0' ≤ c && c ≤ '9' then c.toNat - '0'.toNat
  else if 'a' ≤ c && c ≤ 'f' then c.toNat - 'a'.toNat + 10
  else if 'A' ≤ c && c ≤ 'F' then c.toNat - 'A'.toNat + 10
  else 0

/-- Go `shouldEscape(c, encodeQueryComponent)`: only the unreserved bytes
(letters, digits, `-`, `_`, `.`, `~`) are left alone in a query component. -/
def shouldEscape (c : Char) : Bool :=
  !(('a' ≤ c && c ≤ 'z') || ('A' ≤ c && c ≤ 'Z') || ('0' ≤ c && c ≤ '9')
    || c = '-' || c = '_' || c = '.' || c = '~')

/-- Go `upperhex`, indexed by a nibble. -/
def upperhex (n : Nat) : Char :=
  "0123456789ABCDEF".data.getD n '0'

/-- One step of Go `escape(s, encodeQueryComponent)`: what is written for one byte. -/
def escapeByte (c : Char) : List Char :=
  if shouldEscape c then
    if c = ' ' then ['+']
    else ['%', upperhex (c.toNat / 16), upperhex (c.toNat % 16)]
  else [c]

/-- Go `escape(s, encodeQueryComponent)` on the bytes of the string. -/
def escapeBytes : List Char → List Char
  | [] => []
  | c :: cs => escapeByte c ++ escapeBytes cs

/-- Go `url.QueryEscape`. -/
def QueryEscape (s : String) : String :=
  ⟨escapeBytes s.data⟩

/-- Go `unescape(s, encodeQueryComponent)` on the bytes of the string: `%XX` is one byte,
`+` is a space, and a `%` that is not followed by two hex digits is an error (`none`). -/
def unescapeBytes : List Char → Option (List Char)
  | [] => some []
  | c :: rest =>
    if c = '%' then
      match rest with
      | a :: b :: rest2 =>
        if ishex a && ishex b then
          (unescapeBytes rest2).map (fun t => Char.ofNat (unhex a * 16 + unhex b) :: t)
        else none
      | _ => none
    else (unescapeBytes rest).map (fun t => (if c = '+' then ' ' else c) :: t)

/-- Go `url.QueryUnescape`; `none` stands for the `EscapeError`. -/
def QueryUnescape (s : String) : Option String :=
  (unescapeBytes s.data).map String.mk

/-- Go `url.Values`, a `map[string][]string`: an association list with at most one entry
for a key. -/
abbrev Values := List (String × List String)

/-- Go `v[key]` with the comma-ok form: the values stored for the key, if any. -/
def Values.lookup (v : Values) (key : String) : Option (List String) :=
  List.lookup key v

/-- Go `_, ok := v[key]`. -/
def Values.has (v : Values) (key : String) : Bool :=
  (v.lookup key).isSome

/-- Go `delete(v, key)`, which is `Values.Del`. -/
def Values.Del (v : Values) (key : String) : Values :=
  v.filter (fun p => p.1 != key)

/-- Go `v[key] = vs`. -/
def Values.store (v : Values) (key : String) (vs : List String) : Values :=
  (key, vs) :: v.Del key

/-- Go `Values.Set`: `v[key] = []string{value}`. -/
def Values.Set (v : Values) (key value : String) : Values :=
  v.store key [value]

/-- Go `m[key] = append(m[key], value)`. -/
def Values.append (v : Values) (key value : String) : Values :=
  v.store key ((v.lookup key).getD [] ++ [value])

/-- The pieces of a byte string between the occurrences of a separator byte. -/
def splitOnByte (sep : Char) : List Char → List (List Char)
  | [] => [[]]
  | c :: cs =>
    if c = sep then [] :: splitOnByte sep cs
    else
      match splitOnByte sep cs with
      | [] => [[c]]
      | seg :: segs => (c :: seg) :: segs

/-- Go `strings.Cut(s, "=")`: the text before the first `=` and the text after it. -/
def cutEq : List Char → List Char × List Char
  | [] => ([], [])
  | c :: cs =>
    if c = '=' then ([], cs)
    else ((c :: (cutEq cs).1), (cutEq cs).2)

/-- One iteration of the loop of Go `parseQuery` (Go 1.17 and later), on the text `seg`
between two `&`: a piece with a semicolon, an empty piece and a piece whose key or value
does not unescape are skipped; otherwise the value is appended under the key. -/
def parseQueryStep (m : Values) (seg : List Char) : Values :=
  if seg.contains ';' then m
  else if seg.isEmpty then m
  else
    match unescapeBytes (cutEq seg).1, unescapeBytes (cutEq seg).2 with
    | some key, some value => m.append ⟨key⟩ ⟨value⟩
    | _, _ => m

/-- Go `url.ParseQuery` with the error dropped, as `URL.Query` does. -/
def parseQuery (query : String) : Values :=
  (splitOnByte '&' query.data).foldl parseQueryStep []

/-- Insertion of a key into a sorted list of keys (byte-wise order). -/
def insertKey (k : String) : List String → List String
  | [] => [k]
  | x :: xs => if k.data ≤ x.data then k :: x :: xs else x :: insertKey k xs

/-- Go `slices.Sort(keys)`. -/
def sortKeys : List String → List String
  | [] => []
  | k :: ks => insertKey k (sortKeys ks)

/-- The inner loop of Go `Values.Encode`: the values of one key are written to the buffer. -/
def encodeKey (keyEscaped : String) (buf : String) : List String → String
  | [] => buf
  | v :: vs =>
    encodeKey keyEscaped
      ((if buf.length > 0 then buf ++ "&" else buf) ++ keyEscaped ++ "=" ++ QueryEscape v) vs

/-- Go `Values.Encode`: the keys are sorted, and every value is written as
`key=value` in escaped form, the pairs separated by `&`. -/
def Values.Encode (v : Values) : String :=
  (sortKeys (v.map Prod.fst)).foldl
    (fun buf k => encodeKey (QueryEscape k) buf ((v.lookup k).getD [])) ""

/-- Go `net/url.URL`.  `URL.String` writes the scheme, authority and escaped path, then
the query, then the fragment; only the query is touched by this package, so the text
written before and after the query is kept as it is written. -/
structure URL where
  /-- The text `URL.String` writes before the query (scheme, user, host, escaped path). -/
  beforeQuery : String
  ForceQuery : Bool
  RawQuery : String
  /-- The text `URL.String` writes after the query (`#` and the escaped fragment, or nothing). -/
  afterQuery : String
  deriving DecidableEq, Repr

/-- Go `URL.String`. -/
def URL.String (u : URL) : String :=
  u.beforeQuery
    ++ (if u.ForceQuery || u.RawQuery != "" then "?" ++ u.RawQuery else "")
    ++ u.afterQuery

/-- Go `URL.Query`. -/
def URL.Query (u : URL) : Values :=
  parseQuery u.RawQuery

end url

/-! ## Go standard library: `net/http` -/

namespace http

/-- Go `http.StatusOK`. -/
def StatusOK : Int := 200

/-- Go `http.StatusInternalServerError`. -/
def StatusInternalServerError : Int := 500

/-- Go `http.Request`, reduced to what this package reads: the URL and the value of the
`User-Agent` header (`r.UserAgent()`). -/
structure Request where
  URL : url.URL
  UserAgent : String
  deriving DecidableEq, Repr

/-- Go `http.Response` as the handler uses it: the status code and the outcome of
`ioutil.ReadAll(resp.Body)`, the bytes of the body or the text of the read error. -/
structure Response where
  StatusCode : Int
  Body : Except String String

/-- Go `http.ResponseWriter`, as a recorder of what the handler writes: the header map,
the status code of the first `WriteHeader` and the bytes written. -/
structure ResponseWriter where
  Header : url.Values
  Code : Option Int
  Body : String
  deriving DecidableEq, Repr

/-- A response writer nothing has been written to. -/
def ResponseWriter.fresh : ResponseWriter :=
  { Header := [], Code := none, Body := "" }

/-- Go `w.WriteHeader(code)`: the first call fixes the status code. -/
def ResponseWriter.WriteHeader (w : ResponseWriter) (code : Int) : ResponseWriter :=
  match w.Code with
  | some _ => w
  | none => { w with Code := some code }

/-- Go `w.Write(data)`: if `WriteHeader` has not been called yet, `Write` calls
`WriteHeader(http.StatusOK)` first; then the bytes are appended to the body. -/
def ResponseWriter.Write (w : ResponseWriter) (data : String) : ResponseWriter :=
  let w := w.WriteHeader StatusOK
  { w with Body := w.Body ++ data }

/-- Go `http.Error`: the content type headers are set, the status code is written, and
the message is written with `fmt.Fprintln`, that is followed by a newline. -/
def Error (w : ResponseWriter) (error : String) (code : Int) : ResponseWriter :=
  let w := { w with Header := w.Header.Set "Content-Type" "text/plain; charset=utf-8" }
  let w := { w with Header := w.Header.Set "X-Content-Type-Options" "nosniff" }
  let w := w.WriteHeader code
  w.Write (error ++ "\n")

end http

/-! ## cache.go, cache_none.go, cache_memcache.go -/

/-- Go `CacheProvider`: the interface of a cache implementation.  The state of the store
is passed explicitly; an error is its text. -/
structure CacheProvider (σ : Type) where
  Get : σ → String → Except String String × σ
  Put : σ → String → Int → String → Option String × σ

/-- Go `ErrNotFound`. -/
def ErrNotFound : String := "not found"

/-- Go `nocache`: `Get` always fails with `ErrNotFound`, `Put` does nothing and succeeds. -/
def nocache {σ : Type} : CacheProvider σ where
  Get c _ := (.error ErrNotFound, c)
  Put c _ _ _ := (none, c)

/-- Go `memcache.Item`. -/
structure Item where
  Key : String
  Value : String
  Expiration : Int
  deriving DecidableEq, Repr

/-- The App Engine memcache service (`memcache.Get`, `memcache.Set`), a parameter of the
model. -/
structure MemcacheService (σ : Type) where
  Get : σ → String → Except String Item × σ
  Set : σ → Item → Option String × σ

/-- Go `memcacheProvider`, over a memcache service: the keys get the prefix. -/
def memcacheProvider {σ : Type} (mc : MemcacheService σ) (pfx : String) : CacheProvider σ where
  Get c key :=
    match mc.Get c (pfx ++ key) with
    | (.error err, c) => (.error err, c)
    | (.ok item, c) => (.ok item.Value, c)
  Put c key expiration data :=
    mc.Set c { Key := pfx ++ key, Value := data, Expiration := expiration }

/-! ## ssr.go -/

/-- Go `defaultUserAgents`. -/
def defaultUserAgents : List String :=
  [ "W3C_Validator", "baiduspider", "bingbot", "facebookexternalhit", "LinkedInBot",
    "Pinterest", "Slackbot-LinkExpanding", "TwitterBot", "Googlebot",
    "Mediapartners-Google" ]

/-- Go `SSR`: the configuration of the middleware.  `Parser` is the user agent parser,
taken as the function from a user agent string to the `Family` of `ParseUserAgent`;
durations are nanoseconds. -/
structure SSR (σ : Type) where
  Puppeteer : String
  Parser : String → String
  UserAgents : List String
  HeadlessParam : String
  OverrideParam : String
  Cache : CacheProvider σ
  Timeout : Int
  Expiration : Int
  Verbose : Bool

/-- Go `time.Second`. -/
def Second : Int := 1000000000

/-- Go `time.Hour`. -/
def Hour : Int := 3600 * Second

/-- Go `Option`: a configuration function. -/
abbrev ConfigOption (σ : Type) := SSR σ → SSR σ

/-- Go `NewSSR`.  The saved user agent parser (`uaparser.NewFromSaved()`) and the memcache
service are external and passed in. -/
def NewSSR {σ : Type} (saved : String → String) (mc : MemcacheService σ) (puppeteer : String)
    (opts : List (ConfigOption σ)) : SSR σ :=
  opts.foldl (fun ssr opt => opt ssr)
    { Puppeteer := puppeteer
      Parser := saved
      UserAgents := defaultUserAgents
      HeadlessParam := "headless"
      OverrideParam := "ssr"
      Cache := memcacheProvider mc "ssr:"
      Timeout := Second * 30
      Expiration := Hour
      Verbose := false }

/-- Go `UserAgents`. -/
def UserAgents {σ : Type} (userAgents : List String) : ConfigOption σ :=
  fun ssr => { ssr with UserAgents := userAgents }

/-- Go `UserAgentParser`. -/
def UserAgentParser {σ : Type} (parser : String → String) : ConfigOption σ :=
  fun ssr => { ssr with Parser := parser }

/-- Go `HeadlessParam`. -/
def HeadlessParam {σ : Type} (name : String) : ConfigOption σ :=
  fun ssr => { ssr with HeadlessParam := name }

/-- Go `OverrideParam`. -/
def OverrideParam {σ : Type} (name : String) : ConfigOption σ :=
  fun ssr => { ssr with OverrideParam := name }

/-- Go `Verbose`. -/
def Verbose {σ : Type} (verbose : Bool) : ConfigOption σ :=
  fun ssr => { ssr with Verbose := verbose }

/-- Go `Timeout`. -/
def Timeout {σ : Type} (timeout : Int) : ConfigOption σ :=
  fun ssr => { ssr with Timeout := timeout }

/-- Go `Expiration`. -/
def Expiration {σ : Type} (expiration : Int) : ConfigOption σ :=
  fun ssr => { ssr with Expiration := expiration }

/-- Go `NoCache`. -/
def NoCache {σ : Type} : ConfigOption σ :=
  fun ssr => { ssr with Cache := nocache }

/-- Go `Memcache`. -/
def Memcache {σ : Type} (mc : MemcacheService σ) (pfx : String) : ConfigOption σ :=
  fun ssr => { ssr with Cache := memcacheProvider mc pfx }

/-- An effect of a handler on the world outside the response writer. -/
inductive Effect where
  /-- Call of `ssr.Cache.Get(ctx, key)`. -/
  | cacheGet (key : String)
  /-- Call of `ssr.Cache.Put(ctx, key, expiration, data)`. -/
  | cachePut (key : String) (expiration : Int) (data : String)
  /-- Call of `client.Get(u)` under a context with the given timeout. -/
  | clientGet (timeout : Int) (u : String)
  /-- Call of `log.Debugf`. -/
  | logDebugf (msg : String)
  /-- Call of `log.Errorf`. -/
  | logErrorf (msg : String)
  deriving DecidableEq, Repr

/-- What a handler acts on: the state of the cache store, the effects so far, and the
response writer. -/
structure World (σ : Type) where
  cache : σ
  trace : List Effect
  w : http.ResponseWriter

/-- The start of a request: a cache state, no effect yet, a fresh response writer. -/
def World.start {σ : Type} (c : σ) : World σ :=
  { cache := c, trace := [], w := http.ResponseWriter.fresh }

/-- Go `http.Handler`: `ServeHTTP(w, r)`. -/
abbrev Handler (σ : Type) := World σ → http.Request → World σ

/-- The urlfetch client under a deadline: `client.Get(u)` gives a response or the text of
an error (transport failure, cancelled context, exceeded deadline). -/
abbrev Client := Int → String → Except String http.Response

/-- The loop of `IsBot` over the configured user agents. -/
def SSR.matchFamily (family : String) : List String → Bool
  | [] => false
  | bot :: rest => if bot = family then true else SSR.matchFamily family rest

/-- Go `SSR.IsHeadless`. -/
def SSR.IsHeadless {σ : Type} (ssr : SSR σ) (r : http.Request) : Bool :=
  let q := r.URL.Query
  q.has ssr.HeadlessParam

/-- Go `SSR.IsBot`. -/
def SSR.IsBot {σ : Type} (ssr : SSR σ) (r : http.Request) : Bool :=
  if ssr.OverrideParam ≠ "" ∧ r.URL.Query.has ssr.OverrideParam = true then true
  else
    let family := ssr.Parser r.UserAgent
    SSR.matchFamily family ssr.UserAgents

/-- The query of the render request in `ServeHTTP`: the headless parameter is set and
the override parameter, when there is one, is deleted. -/
def SSR.renderQuery {σ : Type} (ssr : SSR σ) (r : http.Request) : url.Values :=
  let q := r.URL.Query
  let q := q.Set ssr.HeadlessParam ""
  if ssr.OverrideParam ≠ "" then q.Del ssr.OverrideParam else q

/-- The request URL after `r.URL.RawQuery = q.Encode()` in `ServeHTTP`. -/
def SSR.renderTarget {σ : Type} (ssr : SSR σ) (r : http.Request) : url.URL :=
  { r.URL with RawQuery := (ssr.renderQuery r).Encode }

/-- The URL `u` of the render request in `ServeHTTP`. -/
def SSR.renderURL {σ : Type} (ssr : SSR σ) (r : http.Request) : String :=
  ssr.Puppeteer ++ "/ssr?url=" ++ url.QueryEscape (ssr.renderTarget r).String

/-- Go `SSR.ServeHTTP`. -/
def SSR.ServeHTTP {σ : Type} (ssr : SSR σ) (client : Client) : Handler σ :=
  fun s r =>
    let key := r.URL.String
    match ssr.Cache.Get s.cache key with
    | (.ok data, c) =>
      { cache := c
        trace := s.trace ++ [.cacheGet key]
        w := (s.w.WriteHeader http.StatusOK).Write data }
    | (.error _, c) =>
      let u := ssr.renderURL r
      let trace := s.trace ++ [.cacheGet key]
      let trace := if ssr.Verbose then trace ++ [.logDebugf ("ssr req " ++ u)] else trace
      let trace := trace ++ [.clientGet ssr.Timeout u]
      match client ssr.Timeout u with
      | .error err =>
        { cache := c
          trace := if ssr.Verbose then trace ++ [.logErrorf ("ssr error " ++ err)] else trace
          w := http.Error s.w err http.StatusInternalServerError }
      | .ok resp =>
        match resp.Body with
        | .error err =>
          { cache := c
            trace := if ssr.Verbose then trace ++ [.logErrorf ("read err " ++ err)] else trace
            w := http.Error s.w err http.StatusInternalServerError }
        | .ok data =>
          { cache := (ssr.Cache.Put c key ssr.Expiration data).2
            trace := trace ++ [.cachePut key ssr.Expiration data]
            w := (s.w.WriteHeader resp.StatusCode).Write data }

/-- Go `SSR.Middleware`.  The wrapper `gaecontext.Middleware` only attaches the App
Engine context to the request and is left out. -/
def SSR.Middleware {σ : Type} (ssr : SSR σ) (client : Client) (next : Handler σ) :
    Handler σ :=
  fun s r =>
    if !ssr.IsHeadless r && ssr.IsBot r then ssr.ServeHTTP client s r
    else next s r

/-! ## Auxiliary definitions for the statements -/

/-- The keys of a `url.Values` map. -/
def url.Values.keys (v : url.Values) : List String :=
  v.map Prod.fst

/-- The effect is a call of the render backend. -/
def Effect.isClientGet : Effect → Bool
  | .clientGet _ _ => true
  | _ => false

/-- The effect is a cache read. -/
def Effect.isCacheGet : Effect → Bool
  | .cacheGet _ => true
  | _ => false

/-- The effect is a cache write. -/
def Effect.isCachePut : Effect → Bool
  | .cachePut _ _ _ => true
  | _ => false

/-- The effects of `ServeHTTP` up to and including the call of the render backend. -/
def SSR.missTrace {σ : Type} (ssr : SSR σ) (r : http.Request) : List Effect :=
  (if ssr.Verbose then
      [Effect.cacheGet r.URL.String, Effect.logDebugf ("ssr req " ++ ssr.renderURL r)]
    else [Effect.cacheGet r.URL.String])
    ++ [Effect.clientGet ssr.Timeout (ssr.renderURL r)]

/-- The first byte string starts the second one. -/
def strings.startsWith : List Char → List Char → Bool
  | [], _ => true
  | _ :: _, [] => false
  | a :: as, b :: bs => a = b && strings.startsWith as bs

/-- Go `strings.Contains` on the bytes: `substr` occurs somewhere in `s`. -/
def strings.containsBytes (substr : List Char) : List Char → Bool
  | [] => substr.isEmpty
  | c :: cs => strings.startsWith substr (c :: cs) || strings.containsBytes substr cs

/-- Go `strings.Contains`. -/
def strings.Contains (s substr : String) : Bool :=
  strings.containsBytes substr.data s.data

/-! ## A concrete setting: the scenario of the specification -/

/-- Go `memcache.ErrCacheMiss`. -/
def ErrCacheMiss : String := "memcache: cache miss"

/-- A memcache service that is a faithful map: an item that was set is found under its
key until it is set again; nothing is evicted and nothing expires. -/
def mapMemcache : MemcacheService (List Item) where
  Get c key :=
    match c.find? (fun item => item.Key == key) with
    | some item => (.ok item, c)
    | none => (.error ErrCacheMiss, c)
  Set c item := (none, item :: c.filter (fun old => old.Key != item.Key))

/-- The user agent string of Googlebot. -/
def googlebotUA : String :=
  "Mozilla/5.0 (compatible; Googlebot/2.1; +http://www.google.com/bot.html)"

/-- A user agent classifier that knows Googlebot and calls everything else `Other`. -/
def scenarioParser : String → String :=
  fun ua => if ua = googlebotUA then "Googlebot" else "Other"

/-- The configuration of the scenario: bot list `["Googlebot"]`, headless parameter
`headless`, override disabled, the memcache provider over the map. -/
def scenarioSSR : SSR (List Item) :=
  NewSSR scenarioParser mapMemcache "https://pptraas.com"
    [UserAgents ["Googlebot"], HeadlessParam "headless", OverrideParam ""]

/-- The request of the scenario: Googlebot asks for `/page`, no query. -/
def scenarioRequest : http.Request :=
  { URL := { beforeQuery := "/page", ForceQuery := false, RawQuery := "", afterQuery := "" }
    UserAgent := googlebotUA }

/-- A render backend that answers every request with the given status and body. -/
def answering (status : Int) (body : String) : Client :=
  fun _ _ => .ok { StatusCode := status, Body := .ok body }

/-- A render backend that cannot be reached: every call fails with the given error. -/
def failing (err : String) : Client :=
  fun _ _ => .error err

/-- A render backend whose response body breaks off: reading it fails with the error. -/
def breaking (status : Int) (err : String) : Client :=
  fun _ _ => .ok { StatusCode := status, Body := .error err }

/-- A configuration in which the headless parameter has the name of the override
parameter, `ssr`. -/
def clashingSSR : SSR (List Item) :=
  NewSSR scenarioParser mapMemcache "https://pptraas.com" [HeadlessParam "ssr"]

/-- The default configuration of `NewSSR`, with the override parameter `ssr`. -/
def defaultSSR : SSR (List Item) :=
  NewSSR scenarioParser mapMemcache "https://pptraas.com" []

/-- The scenario with the bot list `["googlebot"]`, in lower case. -/
def lowercaseSSR : SSR (List Item) :=
  NewSSR scenarioParser mapMemcache "https://pptraas.com"
    [UserAgents ["googlebot"], HeadlessParam "headless", OverrideParam ""]

/-- A request for `/page` with the given raw query and user agent. -/
def pageRequest (rawQuery ua : String) : http.Request :=
  { URL := { beforeQuery := "/page", ForceQuery := false, RawQuery := rawQuery,
             afterQuery := "" }
    UserAgent := ua }

/-- A wrapped handler: the application answers with its page. -/
def application : Handler (List Item) :=
  fun s _ => { s with w := s.w.Write "<html>app</html>" }

/-- The state of the map memcache in which the rendered page of `/page` is stored. -/
def cachedPage : List Item :=
  [{ Key := "ssr:/page", Value := "<html>ok</html>", Expiration := Hour }]

/-! ## Auxiliary definitions for the round trip of a query -/

/-- Every character of the string is a byte. -/
def url.isBytes (s : String) : Bool :=
  s.data.all (fun c => c.toNat < 256)

/-- One pair of `Values.Encode`: the escaped key, `=`, the escaped value. -/
def url.encodeSegment (k v : String) : List Char :=
  url.escapeBytes k.data ++ '=' :: url.escapeBytes v.data

/-- The pairs after the first one in the output of `Values.Encode`, each after a `&`. -/
def url.ampTail : List (List Char) → List Char
  | [] => []
  | seg :: rest => '&' :: (seg ++ url.ampTail rest)

/-- One write of a pair to the buffer of `Values.Encode`. -/
def url.bufStep (buf seg : List Char) : List Char :=
  (if buf.length > 0 then buf ++ ['&'] else buf) ++ seg

/-- The key and value pairs of a map in the order `Values.Encode` writes them. -/
def url.Values.pairs (v : url.Values) : List (String × String) :=
  (url.sortKeys v.keys).flatMap (fun k => ((v.lookup k).getD []).map (fun x => (k, x)))

/-- The invariant of a parsed query: no key occurs twice, every key has a value, and all
keys and values are byte strings. -/
def url.Values.WF (m : url.Values) : Prop :=
  m.keys.Nodup
    ∧ ∀ p ∈ m, p.2 ≠ [] ∧ url.isBytes p.1 = true ∧ ∀ x ∈ p.2, url.isBytes x = true

/-! ## Lemmas on `url.Values` -/

theorem url.Values.has_iff_mem_keys (v : url.Values) (key : String) :
    v.has key = true ↔ key ∈ v.keys := by
  unfold url.Values.has url.Values.lookup url.Values.keys
  induction v with
  | nil => simp
  | cons p v ih =>
    obtain ⟨k, vs⟩ := p
    by_cases h : key = k
    · subst h
      simp [List.lookup]
    · have h2 : (key == k) = false := by simpa using h
      simp [List.lookup, h2, h, ih]

theorem url.Values.lookup_Del_self (v : url.Values) (key : String) :
    (v.Del key).lookup key = none := by
  unfold url.Values.Del url.Values.lookup
  induction v with
  | nil => rfl
  | cons p v ih =>
    obtain ⟨k, vs⟩ := p
    by_cases h : k = key
    · simp [List.filter_cons, h, ih]
    · have h2 : (key == k) = false := by simpa using fun e => h e.symm
      simp [List.filter_cons, h, List.lookup, h2, ih]

theorem url.Values.lookup_Del_ne (v : url.Values) (key k : String) (hk : k ≠ key) :
    (v.Del key).lookup k = v.lookup k := by
  unfold url.Values.Del url.Values.lookup
  induction v with
  | nil => rfl
  | cons p v ih =>
    obtain ⟨k2, vs⟩ := p
    by_cases h : k2 = key
    · have h2 : (k == key) = false := by simpa using hk
      simp [List.filter_cons, h, List.lookup, h2, ih]
    · by_cases h3 : k = k2
      · simp [List.filter_cons, h, List.lookup, h3]
      · have h2 : (k == k2) = false := by simpa using h3
        simp [List.filter_cons, h, List.lookup, h2, ih]

theorem url.Values.lookup_store_self (v : url.Values) (key : String) (vs : List String) :
    (v.store key vs).lookup key = some vs := by
  simp [url.Values.store, url.Values.lookup, List.lookup]

theorem url.Values.lookup_store_ne (v : url.Values) (key k : String) (vs : List String)
    (hk : k ≠ key) : (v.store key vs).lookup k = v.lookup k := by
  have h2 : (k == key) = false := by simpa using hk
  have h3 := url.Values.lookup_Del_ne v key k hk
  unfold url.Values.lookup at h3 ⊢
  simp [url.Values.store, List.lookup, h2, h3]

theorem url.escapeBytes_append (a b : List Char) :
    url.escapeBytes (a ++ b) = url.escapeBytes a ++ url.escapeBytes b := by
  induction a with
  | nil => rfl
  | cons c cs ih => simp [url.escapeBytes, ih]

theorem url.QueryEscape_append (a b : String) :
    url.QueryEscape (a ++ b) = url.QueryEscape a ++ url.QueryEscape b := by
  apply String.ext
  simp [url.QueryEscape, url.escapeBytes_append]

theorem strings.startsWith_append (p t : List Char) :
    strings.startsWith p (p ++ t) = true := by
  induction p with
  | nil => rfl
  | cons c cs ih => simp [strings.startsWith, ih]

theorem strings.containsBytes_infix (a p t : List Char) :
    strings.containsBytes p (a ++ (p ++ t)) = true := by
  induction a with
  | nil =>
    cases p with
    | nil => cases t <;> simp [strings.containsBytes, strings.startsWith]
    | cons c cs =>
      have h := strings.startsWith_append (c :: cs) t
      simp only [List.nil_append, List.cons_append] at h ⊢
      simp [strings.containsBytes, h]
  | cons x xs ih =>
    show (strings.startsWith p (x :: (xs ++ (p ++ t)))
      || strings.containsBytes p (xs ++ (p ++ t))) = true
    rw [ih, Bool.or_true]

theorem strings.Contains_infix (a p t : String) :
    strings.Contains (a ++ p ++ t) p = true := by
  unfold strings.Contains
  have h := strings.containsBytes_infix a.data p.data t.data
  simpa [String.data_append, List.append_assoc] using h

/-! ## Lemmas on escaping, encoding and parsing -/

theorem url.upperhex_spec (n : Nat) :
    url.upperhex n ≠ '&' ∧ url.upperhex n ≠ '=' ∧ url.upperhex n ≠ ';'
      ∧ url.upperhex n ≠ '%' := by
  rcases Nat.lt_or_ge n 16 with h | h
  · interval_cases n <;> decide
  · have : url.upperhex n = '0' := by
      unfold url.upperhex
      exact List.getD_eq_default _ _ (by simpa using h)
    rw [this]
    decide

theorem url.unhex_upperhex (n : Nat) (h : n < 16) :
    url.ishex (url.upperhex n) = true ∧ url.unhex (url.upperhex n) = n := by
  interval_cases n <;> decide

theorem url.escapeByte_safe (c x : Char) (hx : x ∈ url.escapeByte c) :
    x ≠ '&' ∧ x ≠ '=' ∧ x ≠ ';' := by
  unfold url.escapeByte at hx
  by_cases h : url.shouldEscape c = true
  · by_cases hs : c = ' '
    · subst hs
      simp only [if_true, h, List.mem_singleton] at hx
      subst hx
      decide
    · simp [h, hs] at hx
      obtain ⟨h1, h2, h3, -⟩ := url.upperhex_spec (c.toNat / 16)
      obtain ⟨g1, g2, g3, -⟩ := url.upperhex_spec (c.toNat % 16)
      rcases hx with hx | hx | hx
      · subst hx
        decide
      · subst hx
        exact ⟨h1, h2, h3⟩
      · subst hx
        exact ⟨g1, g2, g3⟩
  · simp [h] at hx
    subst hx
    have h' : url.shouldEscape x = false := by simpa using h
    refine ⟨?_, ?_, ?_⟩ <;> rintro rfl <;> revert h' <;> decide

theorem url.escapeBytes_safe (s : List Char) (x : Char) (hx : x ∈ url.escapeBytes s) :
    x ≠ '&' ∧ x ≠ '=' ∧ x ≠ ';' := by
  induction s with
  | nil => simp [url.escapeBytes] at hx
  | cons c cs ih =>
    simp only [url.escapeBytes, List.mem_append] at hx
    rcases hx with hx | hx
    · exact url.escapeByte_safe c x hx
    · exact ih hx

theorem url.unescapeBytes_cons_ne (c : Char) (rest : List Char) (h : c ≠ '%') :
    url.unescapeBytes (c :: rest)
      = (url.unescapeBytes rest).map (fun t => (if c = '+' then ' ' else c) :: t) := by
  conv_lhs => unfold url.unescapeBytes
  simp [h]

theorem url.unescapeBytes_percent (a b : Char) (rest : List Char) :
    url.unescapeBytes ('%' :: a :: b :: rest)
      = if url.ishex a && url.ishex b then
          (url.unescapeBytes rest).map
            (fun t => Char.ofNat (url.unhex a * 16 + url.unhex b) :: t)
        else none := by
  conv_lhs => unfold url.unescapeBytes
  simp

theorem url.unescapeBytes_escapeByte (c : Char) (hc : c.toNat < 256) (t : List Char) :
    url.unescapeBytes (url.escapeByte c ++ t)
      = (url.unescapeBytes t).map (fun u => c :: u) := by
  unfold url.escapeByte
  by_cases h : url.shouldEscape c = true
  · by_cases hs : c = ' '
    · subst hs
      simp only [if_true, h]
      rw [List.singleton_append, url.unescapeBytes_cons_ne _ _ (by decide)]
      simp
    · have hd : c.toNat / 16 < 16 := by omega
      have hm : c.toNat % 16 < 16 := by omega
      obtain ⟨a1, a2⟩ := url.unhex_upperhex _ hd
      obtain ⟨b1, b2⟩ := url.unhex_upperhex _ hm
      have hval : c.toNat / 16 * 16 + c.toNat % 16 = c.toNat := by omega
      simp only [h, hs, if_true, if_false, List.cons_append, List.nil_append]
      rw [url.unescapeBytes_percent]
      simp [a1, a2, b1, b2, hval]
  · have h' : url.shouldEscape c = false := by simpa using h
    have hp : c ≠ '%' := by
      rintro rfl
      revert h'
      decide
    have hq : c ≠ '+' := by
      rintro rfl
      revert h'
      decide
    simp only [h', if_false, Bool.false_eq_true, List.singleton_append]
    rw [url.unescapeBytes_cons_ne _ _ hp]
    simp [hq]

theorem url.unescapeBytes_escapeBytes (s : List Char) (hs : ∀ c ∈ s, c.toNat < 256) :
    url.unescapeBytes (url.escapeBytes s) = some s := by
  induction s with
  | nil => rfl
  | cons c cs ih =>
    have h1 := ih (fun x hx => hs x (List.mem_cons_of_mem _ hx))
    rw [url.escapeBytes, url.unescapeBytes_escapeByte c (hs c (List.mem_cons_self _ _)), h1]
    rfl

theorem url.splitOnByte_of_not_mem (sep : Char) (s : List Char) (h : sep ∉ s) :
    url.splitOnByte sep s = [s] := by
  induction s with
  | nil => rfl
  | cons c cs ih =>
    have hc : c ≠ sep := fun e => h (by simp [e])
    have hcs : sep ∉ cs := fun e => h (List.mem_cons_of_mem _ e)
    simp [url.splitOnByte, hc, ih hcs]

theorem url.splitOnByte_append (sep : Char) (s x : List Char) (h : sep ∉ s) :
    url.splitOnByte sep (s ++ sep :: x) = s :: url.splitOnByte sep x := by
  induction s with
  | nil => simp [url.splitOnByte]
  | cons c cs ih =>
    have hc : c ≠ sep := fun e => h (by simp [e])
    have hcs : sep ∉ cs := fun e => h (List.mem_cons_of_mem _ e)
    simp [url.splitOnByte, hc, ih hcs]

theorem url.splitOnByte_ampTail (seg : List Char) (rest : List (List Char))
    (hseg : '&' ∉ seg) (hrest : ∀ t ∈ rest, '&' ∉ t) :
    url.splitOnByte '&' (seg ++ url.ampTail rest) = seg :: rest := by
  induction rest generalizing seg with
  | nil => simpa [url.ampTail] using url.splitOnByte_of_not_mem '&' seg hseg
  | cons t ts ih =>
    rw [url.ampTail, url.splitOnByte_append '&' seg _ hseg,
      ih t (hrest t (List.mem_cons_self _ _))
        (fun u hu => hrest u (List.mem_cons_of_mem _ hu))]

theorem url.cutEq_append (a b : List Char) (h : '=' ∉ a) :
    url.cutEq (a ++ '=' :: b) = (a, b) := by
  induction a with
  | nil => simp [url.cutEq]
  | cons c cs ih =>
    have hc : c ≠ '=' := fun e => h (by simp [e])
    have hcs : '=' ∉ cs := fun e => h (List.mem_cons_of_mem _ e)
    simp [url.cutEq, hc, ih hcs]

theorem url.foldl_bufStep (segs : List (List Char)) (buf : List Char) (hb : buf ≠ []) :
    segs.foldl url.bufStep buf = buf ++ url.ampTail segs := by
  induction segs generalizing buf with
  | nil => simp [url.ampTail]
  | cons seg rest ih =>
    have hlen : buf.length > 0 := List.length_pos.mpr hb
    have hstep : url.bufStep buf seg = buf ++ '&' :: seg := by
      simp [url.bufStep, hlen]
    rw [List.foldl_cons, hstep, ih _ (by simp), url.ampTail]
    simp

theorem url.foldl_bufStep_nil (seg : List Char) (rest : List (List Char)) (hs : seg ≠ []) :
    (seg :: rest).foldl url.bufStep [] = seg ++ url.ampTail rest := by
  have hstep : url.bufStep [] seg = seg := by simp [url.bufStep]
  rw [List.foldl_cons, hstep, url.foldl_bufStep rest seg hs]

theorem url.encodeKey_data (ke : String) (vs : List String) (buf : String) :
    (url.encodeKey ke buf vs).data
      = (vs.map (fun v => ke.data ++ '=' :: url.escapeBytes v.data)).foldl
          url.bufStep buf.data := by
  induction vs generalizing buf with
  | nil => rfl
  | cons v vs ih =>
    rw [url.encodeKey, ih]
    simp only [List.map_cons, List.foldl_cons]
    congr 1
    by_cases hl : buf.length > 0
    · have hl2 : buf.data.length > 0 := hl
      simp [url.bufStep, hl, hl2, String.data_append, url.QueryEscape]
    · have hl2 : ¬ buf.data.length > 0 := hl
      simp [url.bufStep, hl, hl2, String.data_append, url.QueryEscape]

theorem url.encode_foldl_data (vals : String → List String) (ks : List String)
    (buf : String) :
    (ks.foldl (fun buf k => url.encodeKey (url.QueryEscape k) buf (vals k)) buf).data
      = (ks.flatMap (fun k => (vals k).map (fun x => url.encodeSegment k x))).foldl
          url.bufStep buf.data := by
  induction ks generalizing buf with
  | nil => rfl
  | cons k ks ih =>
    rw [List.foldl_cons, ih, url.encodeKey_data, List.flatMap_cons, List.foldl_append]
    rfl

theorem url.Values.Encode_data (v : url.Values) :
    v.Encode.data
      = (v.pairs.map (fun p => url.encodeSegment p.1 p.2)).foldl url.bufStep [] := by
  unfold url.Values.Encode url.Values.pairs
  rw [url.encode_foldl_data (fun k => (v.lookup k).getD [])]
  simp [List.map_flatMap, url.Values.keys, Function.comp_def]

theorem url.encodeSegment_safe (k v : String) :
    '&' ∉ url.encodeSegment k v ∧ ';' ∉ url.encodeSegment k v
      ∧ url.encodeSegment k v ≠ [] := by
  refine ⟨fun h => ?_, fun h => ?_, by simp [url.encodeSegment]⟩
  · simp only [url.encodeSegment, List.mem_append, List.mem_cons] at h
    rcases h with h | h | h
    · exact (url.escapeBytes_safe _ _ h).1 rfl
    · exact absurd h (by decide)
    · exact (url.escapeBytes_safe _ _ h).1 rfl
  · simp only [url.encodeSegment, List.mem_append, List.mem_cons] at h
    rcases h with h | h | h
    · exact (url.escapeBytes_safe _ _ h).2.2 rfl
    · exact absurd h (by decide)
    · exact (url.escapeBytes_safe _ _ h).2.2 rfl

theorem url.parseQueryStep_encodeSegment (m : url.Values) (k v : String)
    (hk : url.isBytes k = true) (hv : url.isBytes v = true) :
    url.parseQueryStep m (url.encodeSegment k v) = m.append k v := by
  obtain ⟨-, h2, h3⟩ := url.encodeSegment_safe k v
  have hcut : url.cutEq (url.encodeSegment k v)
      = (url.escapeBytes k.data, url.escapeBytes v.data) :=
    url.cutEq_append _ _ (fun h => (url.escapeBytes_safe _ _ h).2.1 rfl)
  have hk2 := url.unescapeBytes_escapeBytes k.data (by simpa [url.isBytes] using hk)
  have hv2 := url.unescapeBytes_escapeBytes v.data (by simpa [url.isBytes] using hv)
  simp [url.parseQueryStep, h2, h3, hcut, hk2, hv2]

theorem url.foldl_parseQueryStep (ps : List (String × String)) (m : url.Values)
    (hps : ∀ p ∈ ps, url.isBytes p.1 = true ∧ url.isBytes p.2 = true) :
    (ps.map (fun p => url.encodeSegment p.1 p.2)).foldl url.parseQueryStep m
      = ps.foldl (fun acc p => url.Values.append acc p.1 p.2) m := by
  induction ps generalizing m with
  | nil => rfl
  | cons p ps ih =>
    obtain ⟨h1, h2⟩ := hps p (List.mem_cons_self _ _)
    rw [List.map_cons, List.foldl_cons, List.foldl_cons,
      url.parseQueryStep_encodeSegment m p.1 p.2 h1 h2,
      ih _ (fun q hq => hps q (List.mem_cons_of_mem _ hq))]

/-- Parsing the encoding of a map gives the pairs of the map, appended one by one. -/
theorem url.parseQuery_Encode (v : url.Values)
    (hv : ∀ p ∈ v.pairs, url.isBytes p.1 = true ∧ url.isBytes p.2 = true) :
    url.parseQuery v.Encode = v.pairs.foldl (fun acc p => url.Values.append acc p.1 p.2) [] := by
  unfold url.parseQuery
  rw [url.Values.Encode_data, ← url.foldl_parseQueryStep v.pairs [] hv]
  cases hp : v.pairs with
  | nil => rfl
  | cons p ps =>
    obtain ⟨s1, -, s3⟩ := url.encodeSegment_safe p.1 p.2
    rw [List.map_cons, url.foldl_bufStep_nil _ _ s3, url.splitOnByte_ampTail _ _ s1]
    intro t ht
    obtain ⟨q, -, rfl⟩ := List.mem_map.mp ht
    exact (url.encodeSegment_safe q.1 q.2).1

theorem url.lookup_foldl_append (ps : List (String × String)) (m : url.Values)
    (k : String) :
    (ps.foldl (fun acc p => url.Values.append acc p.1 p.2) m).lookup k
      = if (ps.filter (fun p => p.1 == k)).map Prod.snd = [] then m.lookup k
        else some ((m.lookup k).getD [] ++ (ps.filter (fun p => p.1 == k)).map Prod.snd) := by
  induction ps generalizing m with
  | nil => simp
  | cons p ps ih =>
    rw [List.foldl_cons, ih]
    by_cases hp : p.1 = k
    · have hl : (m.append p.1 p.2).lookup k = some ((m.lookup k).getD [] ++ [p.2]) := by
        rw [← hp]
        exact url.Values.lookup_store_self _ _ _
      have hb : (p.1 == k) = true := by simpa using hp
      rw [hl]
      by_cases hr : (ps.filter (fun p => p.1 == k)).map Prod.snd = []
      · simp [List.filter_cons, hb, hr]
      · simp [List.filter_cons, hb, hr]
    · have hl : (m.append p.1 p.2).lookup k = m.lookup k :=
        url.Values.lookup_store_ne _ _ _ _ (fun e => hp e.symm)
      have hb : (p.1 == k) = false := by simpa using hp
      have hf : (p :: ps).filter (fun p => p.1 == k) = ps.filter (fun p => p.1 == k) := by
        simp [List.filter_cons, hb]
      rw [hl, hf]

theorem url.filter_pairs (vals : String → List String) (ks : List String) (k : String)
    (hnd : ks.Nodup) :
    ((ks.flatMap (fun x => (vals x).map (fun y => (x, y)))).filter
        (fun p => p.1 == k)).map Prod.snd
      = if k ∈ ks then vals k else [] := by
  induction ks with
  | nil => simp
  | cons x xs ih =>
    obtain ⟨hx, hxs⟩ := List.nodup_cons.mp hnd
    rw [List.flatMap_cons, List.filter_append, List.map_append, ih hxs]
    by_cases hk : x = k
    · subst hk
      have h1 : ((vals x).map (fun y => (x, y))).filter (fun p => p.1 == x)
          = (vals x).map (fun y => (x, y)) := by
        apply List.filter_eq_self.mpr
        intro p hp
        obtain ⟨y, -, rfl⟩ := List.mem_map.mp hp
        simp
      simp [h1, hx, Function.comp_def]
    · have h1 : ((vals x).map (fun y => (x, y))).filter (fun p => p.1 == k) = [] := by
        apply List.filter_eq_nil_iff.mpr
        intro p hp
        obtain ⟨y, -, rfl⟩ := List.mem_map.mp hp
        simpa using hk
      have hkx : k ≠ x := fun e => hk e.symm
      have h2 : (k ∈ x :: xs) ↔ k ∈ xs := by
        simp [hkx]
      simp [h1, h2]

theorem url.insertKey_perm (k : String) (l : List String) :
    (url.insertKey k l).Perm (k :: l) := by
  induction l with
  | nil => exact List.Perm.refl _
  | cons x xs ih =>
    unfold url.insertKey
    by_cases h : k.data ≤ x.data
    · simp [h]
    · simp only [h, if_false]
      exact (List.Perm.cons x ih).trans (List.Perm.swap k x xs)

theorem url.sortKeys_perm (l : List String) : (url.sortKeys l).Perm l := by
  induction l with
  | nil => exact List.Perm.refl _
  | cons x xs ih =>
    unfold url.sortKeys
    exact (url.insertKey_perm x _).trans (List.Perm.cons x ih)

theorem url.char_le_iff (a b : Char) : a ≤ b ↔ a.toNat ≤ b.toNat := by
  rw [Char.le_def, UInt32.le_def, BitVec.le_def]
  rfl

theorem url.unhex_lt (c : Char) : url.unhex c < 16 := by
  unfold url.unhex
  simp only [Bool.and_eq_true, decide_eq_true_eq, url.char_le_iff]
  have h0 : '0'.toNat = 48 := by decide
  have h9 : '9'.toNat = 57 := by decide
  have ha : 'a'.toNat = 97 := by decide
  have hf : 'f'.toNat = 102 := by decide
  have hA : 'A'.toNat = 65 := by decide
  have hF : 'F'.toNat = 70 := by decide
  rw [h0, h9, ha, hf, hA, hF]
  split_ifs <;> omega

theorem url.toNat_ofNat_lt (n : Nat) (h : n < 256) : (Char.ofNat n).toNat < 256 := by
  have hv : n.isValidChar := by
    left
    omega
  have : (Char.ofNat n).toNat = n := by
    simp only [Char.ofNat, hv, dite_true, Char.ofNatAux, Char.toNat]
    rfl
  omega

theorem url.unescapeBytes_bytes (n : Nat) :
    ∀ s t : List Char, s.length ≤ n → url.unescapeBytes s = some t →
      (∀ c ∈ s, c.toNat < 256) → ∀ c ∈ t, c.toNat < 256 := by
  induction n using Nat.strong_induction_on with
  | _ n ih =>
    intro s t hlen hs hb
    cases s with
    | nil =>
      simp [url.unescapeBytes] at hs
      subst hs
      simp
    | cons c rest =>
      by_cases hc : c = '%'
      · subst hc
        match rest, hlen, hs, hb with
        | [], _, hs, _ => simp [url.unescapeBytes] at hs
        | [a], _, hs, _ => simp [url.unescapeBytes] at hs
        | a :: b :: rest2, hlen, hs, hb =>
          rw [url.unescapeBytes_percent] at hs
          by_cases hx : (url.ishex a && url.ishex b) = true
          · rw [if_pos hx] at hs
            obtain ⟨t2, ht2, rfl⟩ := Option.map_eq_some'.mp hs
            have hlen2 : rest2.length ≤ n - 1 := by
              simp only [List.length_cons] at hlen
              omega
            have hlt : n - 1 < n := by
              simp only [List.length_cons] at hlen
              omega
            have hrest := ih (n - 1) hlt rest2 t2 hlen2 ht2
              (fun x hx => hb x (by simp [hx]))
            intro x hx
            rcases List.mem_cons.mp hx with rfl | hx
            · apply url.toNat_ofNat_lt
              have := url.unhex_lt a
              have := url.unhex_lt b
              omega
            · exact hrest x hx
          · rw [if_neg hx] at hs
            exact absurd hs (by simp)
      · rw [url.unescapeBytes_cons_ne _ _ hc] at hs
        obtain ⟨t2, ht2, rfl⟩ := Option.map_eq_some'.mp hs
        have hlen2 : rest.length ≤ n - 1 := by
          simp only [List.length_cons] at hlen
          omega
        have hlt : n - 1 < n := by
          simp only [List.length_cons] at hlen
          omega
        have hrest := ih (n - 1) hlt rest t2 hlen2 ht2 (fun x hx => hb x (by simp [hx]))
        intro x hx
        rcases List.mem_cons.mp hx with rfl | hx
        · by_cases hp : c = '+'
          · simp only [hp, if_true]
            decide
          · simp only [hp, if_false]
            exact hb c (by simp)
        · exact hrest x hx

theorem url.splitOnByte_mem (sep : Char) (s seg : List Char)
    (h : seg ∈ url.splitOnByte sep s) : ∀ c ∈ seg, c ∈ s := by
  induction s generalizing seg with
  | nil =>
    simp [url.splitOnByte] at h
    subst h
    simp
  | cons x xs ih =>
    unfold url.splitOnByte at h
    by_cases hx : x = sep
    · simp only [hx, if_true, List.mem_cons] at h
      rcases h with rfl | h
      · simp
      · intro c hc
        exact List.mem_cons_of_mem _ (ih seg h c hc)
    · simp only [hx, if_false] at h
      cases hsp : url.splitOnByte sep xs with
      | nil =>
        rw [hsp] at h
        simp at h
        subst h
        simp
      | cons first more =>
        rw [hsp] at h ih
        simp only [List.mem_cons] at h
        rcases h with rfl | h
        · intro c hc
          rcases List.mem_cons.mp hc with rfl | hc
          · simp
          · exact List.mem_cons_of_mem _ (ih first (by simp) c hc)
        · intro c hc
          exact List.mem_cons_of_mem _ (ih seg (by simp [h]) c hc)

theorem url.cutEq_mem (s : List Char) :
    (∀ c ∈ (url.cutEq s).1, c ∈ s) ∧ (∀ c ∈ (url.cutEq s).2, c ∈ s) := by
  induction s with
  | nil => simp [url.cutEq]
  | cons x xs ih =>
    unfold url.cutEq
    by_cases hx : x = '='
    · simp only [hx, if_true]
      exact ⟨by simp, fun c hc => List.mem_cons_of_mem _ hc⟩
    · simp only [hx, if_false]
      refine ⟨fun c hc => ?_, fun c hc => List.mem_cons_of_mem _ (ih.2 c hc)⟩
      rcases List.mem_cons.mp hc with rfl | hc
      · simp
      · exact List.mem_cons_of_mem _ (ih.1 c hc)

theorem url.Values.mem_of_lookup (m : url.Values) (k : String) (vs : List String)
    (h : m.lookup k = some vs) : (k, vs) ∈ m := by
  unfold url.Values.lookup at h
  induction m with
  | nil => simp at h
  | cons p m ih =>
    obtain ⟨k2, vs2⟩ := p
    by_cases hk : k = k2
    · subst hk
      simp [List.lookup] at h
      simp [h]
    · have h2 : (k == k2) = false := by simpa using hk
      simp only [List.lookup, h2] at h
      exact List.mem_cons_of_mem _ (ih h)

theorem url.Values.lookup_eq_none_of_not_mem (m : url.Values) (k : String)
    (h : k ∉ m.keys) : m.lookup k = none := by
  have h1 := (url.Values.has_iff_mem_keys m k).not.mpr h
  unfold url.Values.has at h1
  cases hl : m.lookup k with
  | none => rfl
  | some vs => simp [hl] at h1

theorem url.Values.lookup_of_mem_keys (m : url.Values) (k : String) (h : k ∈ m.keys) :
    ∃ vs, m.lookup k = some vs := by
  have h1 := (url.Values.has_iff_mem_keys m k).mpr h
  unfold url.Values.has at h1
  cases hl : m.lookup k with
  | none => simp [hl] at h1
  | some vs => exact ⟨vs, rfl⟩

theorem url.Values.WF_nil : url.Values.WF [] := by
  simp [url.Values.WF, url.Values.keys]

theorem url.Values.WF_Del (m : url.Values) (k : String) (h : m.WF) : (m.Del k).WF := by
  obtain ⟨h1, h2⟩ := h
  refine ⟨?_, fun p hp => h2 p (List.mem_of_mem_filter hp)⟩
  exact List.Nodup.sublist (List.Sublist.map _ (List.filter_sublist _)) h1

theorem url.Values.not_mem_keys_Del (m : url.Values) (k : String) : k ∉ (m.Del k).keys := by
  intro h
  obtain ⟨vs, hvs⟩ := url.Values.lookup_of_mem_keys _ _ h
  rw [url.Values.lookup_Del_self] at hvs
  simp at hvs

theorem url.Values.WF_store (m : url.Values) (k : String) (vs : List String) (h : m.WF)
    (hvs : vs ≠ []) (hk : url.isBytes k = true) (hb : ∀ x ∈ vs, url.isBytes x = true) :
    (m.store k vs).WF := by
  obtain ⟨h1, h2⟩ := url.Values.WF_Del m k h
  refine ⟨?_, ?_⟩
  · show (url.Values.keys ((k, vs) :: m.Del k)).Nodup
    exact List.nodup_cons.mpr ⟨url.Values.not_mem_keys_Del m k, h1⟩
  · intro p hp
    rcases List.mem_cons.mp hp with rfl | hp
    · exact ⟨hvs, hk, hb⟩
    · exact h2 p hp

theorem url.Values.WF_append (m : url.Values) (k v : String) (h : m.WF)
    (hk : url.isBytes k = true) (hv : url.isBytes v = true) : (m.append k v).WF := by
  apply url.Values.WF_store m k _ h (by simp) hk
  intro x hx
  rcases List.mem_append.mp hx with hx | hx
  · cases hl : m.lookup k with
    | none => simp [hl] at hx
    | some vs =>
      simp only [hl, Option.getD_some] at hx
      exact (h.2 _ (url.Values.mem_of_lookup m k vs hl)).2.2 x hx
  · simp only [List.mem_singleton] at hx
    rw [hx]
    exact hv

theorem url.WF_parseQueryStep (m : url.Values) (seg : List Char) (h : m.WF)
    (hseg : ∀ c ∈ seg, c.toNat < 256) : (url.parseQueryStep m seg).WF := by
  unfold url.parseQueryStep
  by_cases h1 : seg.contains ';' = true
  · simp only [h1, if_true]
    exact h
  · by_cases h2 : seg.isEmpty = true
    · simp only [h1, h2, if_true, if_false]
      exact h
    · simp only [h1, h2, if_false]
      cases hk : url.unescapeBytes (url.cutEq seg).1 with
      | none => exact h
      | some key =>
        cases hv : url.unescapeBytes (url.cutEq seg).2 with
        | none => exact h
        | some value =>
          have hkb := url.unescapeBytes_bytes _ _ key (Nat.le_refl _) hk
            (fun c hc => hseg c ((url.cutEq_mem seg).1 c hc))
          have hvb := url.unescapeBytes_bytes _ _ value (Nat.le_refl _) hv
            (fun c hc => hseg c ((url.cutEq_mem seg).2 c hc))
          exact url.Values.WF_append m ⟨key⟩ ⟨value⟩ h
            (by simpa [url.isBytes] using hkb) (by simpa [url.isBytes] using hvb)

theorem url.WF_foldl_parseQueryStep (segs : List (List Char)) (m : url.Values) (h : m.WF)
    (hsegs : ∀ seg ∈ segs, ∀ c ∈ seg, c.toNat < 256) :
    (segs.foldl url.parseQueryStep m).WF := by
  induction segs generalizing m with
  | nil => exact h
  | cons seg rest ih =>
    exact ih _ (url.WF_parseQueryStep m seg h (hsegs seg (List.mem_cons_self _ _)))
      (fun t ht => hsegs t (List.mem_cons_of_mem _ ht))

theorem url.WF_parseQuery (query : String) (h : url.isBytes query = true) :
    (url.parseQuery query).WF := by
  apply url.WF_foldl_parseQueryStep _ _ url.Values.WF_nil
  intro seg hseg c hc
  have hq : ∀ c ∈ query.data, c.toNat < 256 := by simpa [url.isBytes] using h
  exact hq c (url.splitOnByte_mem '&' _ seg hseg c hc)

/-- Parsing the encoding of a well-formed map gives back the values of every key. -/
theorem url.parseQuery_Encode_lookup (m : url.Values) (h : m.WF) (k : String) :
    (url.parseQuery m.Encode).lookup k = m.lookup k := by
  have hnd : (url.sortKeys m.keys).Nodup := (url.sortKeys_perm m.keys).nodup_iff.mpr h.1
  have hpairs : ∀ p ∈ m.pairs, url.isBytes p.1 = true ∧ url.isBytes p.2 = true := by
    intro p hp
    unfold url.Values.pairs at hp
    obtain ⟨key, -, hp⟩ := List.mem_flatMap.mp hp
    obtain ⟨x, hx, rfl⟩ := List.mem_map.mp hp
    cases hl : m.lookup key with
    | none => simp [hl] at hx
    | some vs =>
      simp only [hl, Option.getD_some] at hx
      have := h.2 _ (url.Values.mem_of_lookup m key vs hl)
      exact ⟨this.2.1, this.2.2 x hx⟩
  rw [url.parseQuery_Encode m hpairs, url.lookup_foldl_append]
  unfold url.Values.pairs
  rw [url.filter_pairs (fun k => (m.lookup k).getD []) _ k hnd]
  by_cases hk : k ∈ m.keys
  · have hk2 : k ∈ url.sortKeys m.keys := (url.sortKeys_perm m.keys).mem_iff.mpr hk
    obtain ⟨vs, hvs⟩ := url.Values.lookup_of_mem_keys m k hk
    have hne : vs ≠ [] := (h.2 _ (url.Values.mem_of_lookup m k vs hvs)).1
    unfold url.Values.lookup at hvs
    simp [hk2, hvs, hne, url.Values.lookup]
  · have hk2 : k ∉ url.sortKeys m.keys := fun e => hk ((url.sortKeys_perm m.keys).mem_iff.mp e)
    have hl := url.Values.lookup_eq_none_of_not_mem m k hk
    unfold url.Values.lookup at hl
    simp [hk2, hl, url.Values.lookup]

/-! ## Lemmas on the handlers -/

theorem SSR.matchFamily_iff (family : String) (bots : List String) :
    SSR.matchFamily family bots = true ↔ family ∈ bots := by
  induction bots with
  | nil => simp [SSR.matchFamily]
  | cons b bs ih =>
    by_cases h : b = family
    · simp [SSR.matchFamily, h]
    · have h2 : ¬ family = b := fun e => h e.symm
      simp [SSR.matchFamily, h, h2, ih]

theorem SSR.ServeHTTP_hit {σ : Type} (ssr : SSR σ) (client : Client) (s : World σ)
    (r : http.Request) (data : String) (c : σ)
    (hget : ssr.Cache.Get s.cache r.URL.String = (.ok data, c)) :
    ssr.ServeHTTP client s r =
      { cache := c
        trace := s.trace ++ [.cacheGet r.URL.String]
        w := (s.w.WriteHeader http.StatusOK).Write data } := by
  simp only [SSR.ServeHTTP, hget]

theorem SSR.ServeHTTP_getError {σ : Type} (ssr : SSR σ) (client : Client) (s : World σ)
    (r : http.Request) (e : String) (c : σ) (err : String)
    (hget : ssr.Cache.Get s.cache r.URL.String = (.error e, c))
    (hcl : client ssr.Timeout (ssr.renderURL r) = .error err) :
    ssr.ServeHTTP client s r =
      { cache := c
        trace := s.trace ++ ssr.missTrace r
          ++ (if ssr.Verbose then [.logErrorf ("ssr error " ++ err)] else [])
        w := http.Error s.w err http.StatusInternalServerError } := by
  simp only [SSR.ServeHTTP, hget, hcl, SSR.missTrace]
  cases ssr.Verbose <;> simp

theorem SSR.ServeHTTP_readError {σ : Type} (ssr : SSR σ) (client : Client) (s : World σ)
    (r : http.Request) (e : String) (c : σ) (resp : http.Response) (err : String)
    (hget : ssr.Cache.Get s.cache r.URL.String = (.error e, c))
    (hcl : client ssr.Timeout (ssr.renderURL r) = .ok resp)
    (hbody : resp.Body = .error err) :
    ssr.ServeHTTP client s r =
      { cache := c
        trace := s.trace ++ ssr.missTrace r
          ++ (if ssr.Verbose then [.logErrorf ("read err " ++ err)] else [])
        w := http.Error s.w err http.StatusInternalServerError } := by
  simp only [SSR.ServeHTTP, hget, hcl, hbody, SSR.missTrace]
  cases ssr.Verbose <;> simp

theorem SSR.ServeHTTP_rendered {σ : Type} (ssr : SSR σ) (client : Client) (s : World σ)
    (r : http.Request) (e : String) (c : σ) (resp : http.Response) (data : String)
    (hget : ssr.Cache.Get s.cache r.URL.String = (.error e, c))
    (hcl : client ssr.Timeout (ssr.renderURL r) = .ok resp)
    (hbody : resp.Body = .ok data) :
    ssr.ServeHTTP client s r =
      { cache := (ssr.Cache.Put c r.URL.String ssr.Expiration data).2
        trace := s.trace ++ ssr.missTrace r
          ++ [.cachePut r.URL.String ssr.Expiration data]
        w := (s.w.WriteHeader resp.StatusCode).Write data } := by
  simp only [SSR.ServeHTTP, hget, hcl, hbody, SSR.missTrace]
  cases ssr.Verbose <;> simp

/-- The four ways through `ServeHTTP`: a cache hit, a failed backend call, a failed read
of the body, and a rendered page. -/
theorem SSR.ServeHTTP_cases {σ : Type} (ssr : SSR σ) (client : Client) (s : World σ)
    (r : http.Request) :
    (∃ data c, ssr.Cache.Get s.cache r.URL.String = (.ok data, c))
    ∨ (∃ e c err, ssr.Cache.Get s.cache r.URL.String = (.error e, c)
        ∧ client ssr.Timeout (ssr.renderURL r) = .error err)
    ∨ (∃ e c resp err, ssr.Cache.Get s.cache r.URL.String = (.error e, c)
        ∧ client ssr.Timeout (ssr.renderURL r) = .ok resp ∧ resp.Body = .error err)
    ∨ (∃ e c resp data, ssr.Cache.Get s.cache r.URL.String = (.error e, c)
        ∧ client ssr.Timeout (ssr.renderURL r) = .ok resp ∧ resp.Body = .ok data) := by
  rcases hget : ssr.Cache.Get s.cache r.URL.String with ⟨res, c⟩
  cases res with
  | ok data => exact Or.inl ⟨data, c, rfl⟩
  | error e =>
    right
    rcases hcl : client ssr.Timeout (ssr.renderURL r) with err | resp
    · exact Or.inl ⟨e, c, err, rfl, rfl⟩
    · right
      rcases hb : resp.Body with err | data
      · exact Or.inl ⟨e, c, resp, err, rfl, rfl, hb⟩
      · exact Or.inr ⟨e, c, resp, data, rfl, rfl, hb⟩

theorem SSR.missTrace_ne_nil {σ : Type} (ssr : SSR σ) (r : http.Request) :
    ssr.missTrace r ≠ [] := by
  unfold SSR.missTrace
  cases ssr.Verbose <;> simp

theorem SSR.ServeHTTP_trace_ne_nil {σ : Type} (ssr : SSR σ) (client : Client)
    (s : World σ) (r : http.Request) : (ssr.ServeHTTP client s r).trace ≠ [] := by
  have hm := SSR.missTrace_ne_nil ssr r
  rcases SSR.ServeHTTP_cases ssr client s r with
    ⟨data, c, hget⟩ | ⟨e, c, err, hget, hcl⟩ | ⟨e, c, resp, err, hget, hcl, hb⟩
      | ⟨e, c, resp, data, hget, hcl, hb⟩
  · rw [SSR.ServeHTTP_hit ssr client s r data c hget]
    simp
  · rw [SSR.ServeHTTP_getError ssr client s r e c err hget hcl]
    simp [hm]
  · rw [SSR.ServeHTTP_readError ssr client s r e c resp err hget hcl hb]
    simp [hm]
  · rw [SSR.ServeHTTP_rendered ssr client s r e c resp data hget hcl hb]
    simp

theorem http.fresh_written (code : Int) (data : String) :
    ((http.ResponseWriter.fresh.WriteHeader code).Write data).Code = some code
    ∧ ((http.ResponseWriter.fresh.WriteHeader code).Write data).Body = data := by
  constructor
  · rfl
  · show ("" : String) ++ data = data
    exact String.ext (by simp)

theorem http.fresh_Error (err : String) (code : Int) :
    (http.Error http.ResponseWriter.fresh err code).Code = some code
    ∧ (http.Error http.ResponseWriter.fresh err code).Body = err ++ "\n" := by
  constructor
  · rfl
  · show ("" : String) ++ (err ++ "\n") = err ++ "\n"
    exact String.ext (by simp)

theorem SSR.missTrace_counts {σ : Type} (ssr : SSR σ) (r : http.Request) :
    (ssr.missTrace r).countP Effect.isCacheGet = 1
    ∧ (ssr.missTrace r).countP Effect.isClientGet = 1
    ∧ (ssr.missTrace r).countP Effect.isCachePut = 0
    ∧ (ssr.missTrace r).filter Effect.isCacheGet = [.cacheGet r.URL.String]
    ∧ (ssr.missTrace r).filter Effect.isClientGet
        = [.clientGet ssr.Timeout (ssr.renderURL r)]
    ∧ (ssr.missTrace r).filter Effect.isCachePut = [] := by
  unfold SSR.missTrace
  cases ssr.Verbose <;>
    simp [List.countP_cons, List.filter_cons, Effect.isCacheGet, Effect.isClientGet,
      Effect.isCachePut]

theorem SSR.errorLog_counts (v : Bool) (msg : String) :
    (if v then [Effect.logErrorf msg] else []).countP Effect.isCacheGet = 0
    ∧ (if v then [Effect.logErrorf msg] else []).countP Effect.isClientGet = 0
    ∧ (if v then [Effect.logErrorf msg] else []).countP Effect.isCachePut = 0 := by
  cases v <;>
    simp [List.countP_cons, Effect.isCacheGet, Effect.isClientGet, Effect.isCachePut]

theorem SSR.ServeHTTP_miss_clientGet {σ : Type} (ssr : SSR σ) (client : Client) (c c2 : σ)
    (r : http.Request) (e : String)
    (hget : ssr.Cache.Get c r.URL.String = (.error e, c2)) :
    (ssr.ServeHTTP client (World.start c) r).trace.filter Effect.isClientGet
      = [.clientGet ssr.Timeout (ssr.renderURL r)] := by
  obtain ⟨-, -, -, -, m5, -⟩ := SSR.missTrace_counts ssr r
  rcases SSR.ServeHTTP_cases ssr client (World.start c) r with
    ⟨data, c3, hget2⟩ | ⟨e2, c3, err, hget2, hcl⟩ | ⟨e2, c3, resp, err, hget2, hcl, hb⟩
      | ⟨e2, c3, resp, data, hget2, hcl, hb⟩
  · rw [World.start, hget] at hget2
    simp at hget2
  · rw [SSR.ServeHTTP_getError ssr client (World.start c) r e2 c3 err hget2 hcl]
    cases hv : ssr.Verbose <;>
      simp [World.start, List.filter_append, m5, List.filter_cons, Effect.isClientGet]
  · rw [SSR.ServeHTTP_readError ssr client (World.start c) r e2 c3 resp err hget2 hcl hb]
    cases hv : ssr.Verbose <;>
      simp [World.start, List.filter_append, m5, List.filter_cons, Effect.isClientGet]
  · rw [SSR.ServeHTTP_rendered ssr client (World.start c) r e2 c3 resp data hget2 hcl hb]
    simp [World.start, List.filter_append, m5, List.filter_cons, Effect.isClientGet]

theorem mapMemcache_faithful (pfx : String) (st : List Item) (k : String) (ttl : Int)
    (d : String) :
    ((memcacheProvider mapMemcache pfx).Get
      ((memcacheProvider mapMemcache pfx).Put st k ttl d).2 k).1 = .ok d := by
  simp [memcacheProvider, mapMemcache]

/-! ## The claims -/

/-- C1: the handler returned by `Middleware` behaves as the render proxy `ServeHTTP`,
whatever the wrapped handler is, if and only if `!IsHeadless(r) && IsBot(r)`; it behaves as
the wrapped handler, called on the same request, if and only if that condition is false;
and a request that carries the headless parameter always goes to the wrapped handler. -/
theorem C1_middleware_routes {σ : Type} (ssr : SSR σ) (client : Client) (s : World σ)
    (r : http.Request) :
    ((∀ next : Handler σ, ssr.Middleware client next s r = ssr.ServeHTTP client s r)
        ↔ (!ssr.IsHeadless r && ssr.IsBot r) = true)
    ∧ ((∀ next : Handler σ, ssr.Middleware client next s r = next s r)
        ↔ (!ssr.IsHeadless r && ssr.IsBot r) = false)
    ∧ (ssr.HeadlessParam ∈ r.URL.Query.keys →
        ∀ next : Handler σ, ssr.Middleware client next s r = next s r) := by
  refine ⟨⟨fun h => ?_, fun h next => ?_⟩, ⟨fun h => ?_, fun h next => ?_⟩, fun h next => ?_⟩
  · by_contra hc
    have hc2 : (!ssr.IsHeadless r && ssr.IsBot r) = false := by simpa using hc
    have h1 := h (fun w _ => { w with trace := [] })
    have h2 : (ssr.ServeHTTP client s r).trace = [] := by
      rw [← h1]
      unfold SSR.Middleware
      rw [hc2]
      simp
    exact SSR.ServeHTTP_trace_ne_nil ssr client s r h2
  · unfold SSR.Middleware
    rw [h]
    simp
  · by_contra hc
    have hc2 : (!ssr.IsHeadless r && ssr.IsBot r) = true := by simpa using hc
    have h1 := h (fun w _ => { w with trace := [] })
    have h2 : (ssr.ServeHTTP client s r).trace = [] := by
      have h3 : ssr.Middleware client (fun w _ => { w with trace := [] }) s r
          = ssr.ServeHTTP client s r := by
        unfold SSR.Middleware
        rw [hc2]
        simp
      rw [← h3, h1]
    exact SSR.ServeHTTP_trace_ne_nil ssr client s r h2
  · unfold SSR.Middleware
    rw [h]
    simp
  · have hh : ssr.IsHeadless r = true := by
      unfold SSR.IsHeadless
      exact (url.Values.has_iff_mem_keys _ _).mpr h
    unfold SSR.Middleware
    simp [hh]

/-- Witness of C1: Googlebot asks for `/page?headless=`; the request goes to the
application. -/
theorem C1_middleware_routes_witness :
    defaultSSR.HeadlessParam ∈ (pageRequest "headless=" googlebotUA).URL.Query.keys
    ∧ defaultSSR.Middleware (failing "unreachable") application (World.start [])
          (pageRequest "headless=" googlebotUA)
        = application (World.start []) (pageRequest "headless=" googlebotUA) :=
  ⟨by decide,
    (C1_middleware_routes defaultSSR (failing "unreachable") (World.start [])
      (pageRequest "headless=" googlebotUA)).2.2 (by decide) application⟩

/-- C2: `IsBot(r)` is true exactly when the override parameter name is not empty and is a
key of the parsed query, or the family the parser gives for the user agent is equal to an
entry of the configured list; with the override enabled and present it is true for every
user agent, and otherwise it is true exactly when the family is in the list. -/
theorem C2_isBot_iff {σ : Type} (ssr : SSR σ) (r : http.Request) :
    (ssr.IsBot r = true ↔
        (ssr.OverrideParam ≠ "" ∧ ssr.OverrideParam ∈ r.URL.Query.keys)
          ∨ ssr.Parser r.UserAgent ∈ ssr.UserAgents)
    ∧ (ssr.OverrideParam ≠ "" → ssr.OverrideParam ∈ r.URL.Query.keys →
        ∀ ua : String, ssr.IsBot { r with UserAgent := ua } = true)
    ∧ (¬ (ssr.OverrideParam ≠ "" ∧ ssr.OverrideParam ∈ r.URL.Query.keys) →
        (ssr.IsBot r = true ↔ ssr.Parser r.UserAgent ∈ ssr.UserAgents)) := by
  have key : ∀ r : http.Request, ssr.IsBot r = true ↔
      (ssr.OverrideParam ≠ "" ∧ ssr.OverrideParam ∈ r.URL.Query.keys)
        ∨ ssr.Parser r.UserAgent ∈ ssr.UserAgents := by
    intro r
    unfold SSR.IsBot
    rw [← url.Values.has_iff_mem_keys]
    by_cases h : ssr.OverrideParam ≠ "" ∧ r.URL.Query.has ssr.OverrideParam = true
    · simp [h]
    · simp only [h, if_false, false_or]
      exact SSR.matchFamily_iff _ _
  refine ⟨key r, fun h1 h2 ua => ?_, fun h => ?_⟩
  · exact (key _).mpr (Or.inl ⟨h1, h2⟩)
  · rw [key r]
    exact ⟨fun h3 => h3.resolve_left h, Or.inr⟩

/-- Witness of C2: with the override `ssr` in the query, a request with an empty user
agent is a bot; without it, a browser is a bot exactly when its family is in the list; and
Googlebot is not a bot for the list `["googlebot"]`. -/
theorem C2_isBot_iff_witness :
    defaultSSR.IsBot { pageRequest "ssr=1" "Mozilla/5.0" with UserAgent := "" } = true
    ∧ (defaultSSR.IsBot (pageRequest "" "Mozilla/5.0") = true
        ↔ defaultSSR.Parser (pageRequest "" "Mozilla/5.0").UserAgent
            ∈ defaultSSR.UserAgents)
    ∧ ¬ lowercaseSSR.IsBot scenarioRequest = true :=
  ⟨(C2_isBot_iff defaultSSR (pageRequest "ssr=1" "Mozilla/5.0")).2.1
      (by decide) (by decide) "",
    (C2_isBot_iff defaultSSR (pageRequest "" "Mozilla/5.0")).2.2 (by decide),
    fun h => absurd ((C2_isBot_iff lowercaseSSR scenarioRequest).1.mp h) (by decide)⟩

/-- C3: `IsHeadless(r)` is true if and only if the headless parameter name is a key of the
parsed query; so it is the same for two requests that agree on whether the key occurs,
whatever the values, the number of occurrences and the user agents are. -/
theorem C3_isHeadless_iff {σ : Type} (ssr : SSR σ) (r : http.Request) :
    (ssr.IsHeadless r = true ↔ ssr.HeadlessParam ∈ r.URL.Query.keys)
    ∧ (∀ ua : String, ssr.IsHeadless { r with UserAgent := ua } = ssr.IsHeadless r)
    ∧ (∀ r2 : http.Request,
        (ssr.HeadlessParam ∈ r2.URL.Query.keys ↔ ssr.HeadlessParam ∈ r.URL.Query.keys) →
          ssr.IsHeadless r2 = ssr.IsHeadless r) := by
  refine ⟨url.Values.has_iff_mem_keys _ _, fun _ => rfl, fun r2 h => ?_⟩
  have h1 := url.Values.has_iff_mem_keys r.URL.Query ssr.HeadlessParam
  have h2 := url.Values.has_iff_mem_keys r2.URL.Query ssr.HeadlessParam
  unfold SSR.IsHeadless
  rw [Bool.eq_iff_iff, h1, h2]
  exact h

/-- Witness of C3: the headless parameter once with no value, and twice with values and
another user agent. -/
theorem C3_isHeadless_iff_witness :
    defaultSSR.IsHeadless (pageRequest "headless=1&a=b&headless=2" googlebotUA)
      = defaultSSR.IsHeadless (pageRequest "headless" "Mozilla/5.0") :=
  (C3_isHeadless_iff defaultSSR (pageRequest "headless" "Mozilla/5.0")).2.2
    (pageRequest "headless=1&a=b&headless=2" googlebotUA)
    ⟨fun _ => by decide, fun _ => by decide⟩

/-- C4: when the cache lookup for the key succeeds with bytes `d`, the response is status
200 with body `d`, and the only effect is the cache read: the render backend is not called
and nothing is put into the cache. -/
theorem C4_cache_hit {σ : Type} (ssr : SSR σ) (client : Client) (c c2 : σ)
    (r : http.Request) (d : String)
    (hget : ssr.Cache.Get c r.URL.String = (.ok d, c2)) :
    (ssr.ServeHTTP client (World.start c) r).w.Code = some 200
    ∧ (ssr.ServeHTTP client (World.start c) r).w.Body = d
    ∧ (ssr.ServeHTTP client (World.start c) r).trace = [.cacheGet r.URL.String]
    ∧ (∀ e ∈ (ssr.ServeHTTP client (World.start c) r).trace,
        e.isClientGet = false ∧ e.isCachePut = false) := by
  rw [SSR.ServeHTTP_hit ssr client (World.start c) r d c2 hget]
  refine ⟨(http.fresh_written _ d).1, (http.fresh_written _ d).2, rfl, ?_⟩
  intro e he
  simp [World.start] at he
  subst he
  exact ⟨rfl, rfl⟩

/-- Witness of C4: the page is in the cache. -/
theorem C4_cache_hit_witness :
    (scenarioSSR.ServeHTTP (failing "unreachable") (World.start cachedPage)
        scenarioRequest).w.Code = some 200
    ∧ (scenarioSSR.ServeHTTP (failing "unreachable") (World.start cachedPage)
        scenarioRequest).w.Body = "<html>ok</html>" :=
  ⟨(C4_cache_hit scenarioSSR (failing "unreachable") cachedPage cachedPage scenarioRequest
      "<html>ok</html>" rfl).1,
    (C4_cache_hit scenarioSSR (failing "unreachable") cachedPage cachedPage scenarioRequest
      "<html>ok</html>" rfl).2.1⟩

/-- C5: when the cache lookup fails and the render backend answers with status `s` and a
body `b` that is read in full, the response has status `s` and body `b`, for every `s`,
and it is the same response whatever `Put` of the cache provider does. -/
theorem C5_relay {σ : Type} (ssr : SSR σ) (client : Client) (c c2 : σ)
    (r : http.Request) (e : String) (resp : http.Response) (b : String)
    (hget : ssr.Cache.Get c r.URL.String = (.error e, c2))
    (hcl : client ssr.Timeout (ssr.renderURL r) = .ok resp)
    (hbody : resp.Body = .ok b) :
    (ssr.ServeHTTP client (World.start c) r).w.Code = some resp.StatusCode
    ∧ (ssr.ServeHTTP client (World.start c) r).w.Body = b
    ∧ (∀ put : σ → String → Int → String → Option String × σ,
        (SSR.ServeHTTP { ssr with Cache := { ssr.Cache with Put := put } } client
            (World.start c) r).w
          = (ssr.ServeHTTP client (World.start c) r).w) := by
  rw [SSR.ServeHTTP_rendered ssr client (World.start c) r e c2 resp b hget hcl hbody]
  refine ⟨(http.fresh_written _ b).1, (http.fresh_written _ b).2, fun put => ?_⟩
  rw [SSR.ServeHTTP_rendered { ssr with Cache := { ssr.Cache with Put := put } } client
    (World.start c) r e c2 resp b hget hcl hbody]

/-- Witness of C5: the render backend answers 404. -/
theorem C5_relay_witness :
    (scenarioSSR.ServeHTTP (answering 404 "<html>gone</html>") (World.start [])
        scenarioRequest).w.Code = some 404
    ∧ (scenarioSSR.ServeHTTP (answering 404 "<html>gone</html>") (World.start [])
        scenarioRequest).w.Body = "<html>gone</html>" :=
  ⟨(C5_relay scenarioSSR (answering 404 "<html>gone</html>") [] [] scenarioRequest
      ErrCacheMiss { StatusCode := 404, Body := .ok "<html>gone</html>" }
      "<html>gone</html>" rfl rfl rfl).1,
    (C5_relay scenarioSSR (answering 404 "<html>gone</html>") [] [] scenarioRequest
      ErrCacheMiss { StatusCode := 404, Body := .ok "<html>gone</html>" }
      "<html>gone</html>" rfl rfl rfl).2.1⟩

/-- C6, amended: when the cache lookup fails and the backend call returns an error, or
reading the body of its response returns an error, the response is status 500, its body
is the error text followed by a newline, and nothing is put into the cache. -/
theorem C6_backend_failure {σ : Type} (ssr : SSR σ) (client : Client) (c c2 : σ)
    (r : http.Request) (e err : String)
    (hget : ssr.Cache.Get c r.URL.String = (.error e, c2))
    (hfail : client ssr.Timeout (ssr.renderURL r) = .error err
      ∨ ∃ resp, client ssr.Timeout (ssr.renderURL r) = .ok resp ∧ resp.Body = .error err) :
    (ssr.ServeHTTP client (World.start c) r).w.Code = some 500
    ∧ (ssr.ServeHTTP client (World.start c) r).w.Body = err ++ "\n"
    ∧ (∀ x ∈ (ssr.ServeHTTP client (World.start c) r).trace, x.isCachePut = false)
    ∧ (ssr.ServeHTTP client (World.start c) r).cache = c2 := by
  have hm : ∀ x ∈ ssr.missTrace r, x.isCachePut = false := by
    intro x hx
    unfold SSR.missTrace at hx
    cases hv : ssr.Verbose <;> simp [hv] at hx <;> rcases hx with h | h
    all_goals first | (subst h; rfl) | (rcases h with h | h <;> subst h <;> rfl)
  rcases hfail with hcl | ⟨resp, hcl, hbody⟩
  · rw [SSR.ServeHTTP_getError ssr client (World.start c) r e c2 err hget hcl]
    refine ⟨(http.fresh_Error err _).1, (http.fresh_Error err _).2, ?_, rfl⟩
    intro x hx
    simp only [World.start, List.nil_append, List.mem_append] at hx
    rcases hx with hx | hx
    · exact hm x hx
    · cases hv : ssr.Verbose <;> simp [hv] at hx
      subst hx
      rfl
  · rw [SSR.ServeHTTP_readError ssr client (World.start c) r e c2 resp err hget hcl hbody]
    refine ⟨(http.fresh_Error err _).1, (http.fresh_Error err _).2, ?_, rfl⟩
    intro x hx
    simp only [World.start, List.nil_append, List.mem_append] at hx
    rcases hx with hx | hx
    · exact hm x hx
    · cases hv : ssr.Verbose <;> simp [hv] at hx
      subst hx
      rfl

/-- C6, as stated, fails: the body of the 500 response is not the error text, a newline
follows it. -/
theorem C6_counterexample :
    (scenarioSSR.ServeHTTP (failing "context deadline exceeded") (World.start [])
        scenarioRequest).w.Code = some 500
    ∧ (scenarioSSR.ServeHTTP (failing "context deadline exceeded") (World.start [])
        scenarioRequest).w.Body = "context deadline exceeded\n"
    ∧ (scenarioSSR.ServeHTTP (failing "context deadline exceeded") (World.start [])
        scenarioRequest).w.Body ≠ "context deadline exceeded" := by
  decide

/-- Witness of C6: the body of the backend response breaks off. -/
theorem C6_backend_failure_witness :
    (scenarioSSR.ServeHTTP (breaking 200 "unexpected EOF") (World.start [])
        scenarioRequest).w.Code = some 500
    ∧ (scenarioSSR.ServeHTTP (breaking 200 "unexpected EOF") (World.start [])
        scenarioRequest).w.Body = "unexpected EOF" ++ "\n" :=
  ⟨(C6_backend_failure scenarioSSR (breaking 200 "unexpected EOF") [] [] scenarioRequest
      ErrCacheMiss "unexpected EOF" rfl
      (Or.inr ⟨{ StatusCode := 200, Body := .error "unexpected EOF" }, rfl, rfl⟩)).1,
    (C6_backend_failure scenarioSSR (breaking 200 "unexpected EOF") [] [] scenarioRequest
      ErrCacheMiss "unexpected EOF" rfl
      (Or.inr ⟨{ StatusCode := 200, Body := .error "unexpected EOF" }, rfl, rfl⟩)).2.1⟩

/-- C7: with a cache provider that is a faithful map (a `Get` after a `Put` on the same
key gives the data that was put), after a `ServeHTTP` call that misses the cache and gets
a body `b` from the render backend, with any status, a following `ServeHTTP` call for a
request with the same URL string answers with status 200 and body `b` and does not call
the render backend. -/
theorem C7_round_trip {σ : Type} (ssr : SSR σ) (client client2 : Client) (c c2 : σ)
    (r r2 : http.Request) (e : String) (resp : http.Response) (b : String)
    (hfaithful : ∀ (st : σ) (k : String) (ttl : Int) (d : String),
      (ssr.Cache.Get (ssr.Cache.Put st k ttl d).2 k).1 = .ok d)
    (hget : ssr.Cache.Get c r.URL.String = (.error e, c2))
    (hcl : client ssr.Timeout (ssr.renderURL r) = .ok resp)
    (hbody : resp.Body = .ok b)
    (hkey : r2.URL.String = r.URL.String) :
    (ssr.ServeHTTP client2
        (World.start (ssr.ServeHTTP client (World.start c) r).cache) r2).w.Code = some 200
    ∧ (ssr.ServeHTTP client2
        (World.start (ssr.ServeHTTP client (World.start c) r).cache) r2).w.Body = b
    ∧ (ssr.ServeHTTP client2
        (World.start (ssr.ServeHTTP client (World.start c) r).cache) r2).trace
          = [.cacheGet r.URL.String] := by
  rw [SSR.ServeHTTP_rendered ssr client (World.start c) r e c2 resp b hget hcl hbody]
  have h := hfaithful c2 r.URL.String ssr.Expiration b
  rcases hg : ssr.Cache.Get (ssr.Cache.Put c2 r.URL.String ssr.Expiration b).2 r.URL.String
    with ⟨res, c3⟩
  rw [hg] at h
  simp only at h
  subst h
  have hg2 : ssr.Cache.Get (World.start (ssr.Cache.Put c2 r.URL.String ssr.Expiration b).2).cache
      r2.URL.String = (.ok b, c3) := by
    rw [hkey]
    exact hg
  rw [SSR.ServeHTTP_hit ssr client2 _ r2 b c3 hg2, hkey]
  exact ⟨(http.fresh_written _ b).1, (http.fresh_written _ b).2, rfl⟩

/-- Witness of C7: the scenario, with a backend that answers 404 first and cannot be
reached afterwards. -/
theorem C7_round_trip_witness :
    (scenarioSSR.ServeHTTP (failing "unreachable")
        (World.start (scenarioSSR.ServeHTTP (answering 404 "<html>gone</html>")
          (World.start []) scenarioRequest).cache)
        (pageRequest "" "Mozilla/5.0")).w.Code = some 200
    ∧ (scenarioSSR.ServeHTTP (failing "unreachable")
        (World.start (scenarioSSR.ServeHTTP (answering 404 "<html>gone</html>")
          (World.start []) scenarioRequest).cache)
        (pageRequest "" "Mozilla/5.0")).w.Body = "<html>gone</html>" :=
  ⟨(C7_round_trip scenarioSSR (answering 404 "<html>gone</html>") (failing "unreachable")
      [] [] scenarioRequest (pageRequest "" "Mozilla/5.0") ErrCacheMiss
      { StatusCode := 404, Body := .ok "<html>gone</html>" } "<html>gone</html>"
      (mapMemcache_faithful "ssr:") rfl rfl rfl rfl).1,
    (C7_round_trip scenarioSSR (answering 404 "<html>gone</html>") (failing "unreachable")
      [] [] scenarioRequest (pageRequest "" "Mozilla/5.0") ErrCacheMiss
      { StatusCode := 404, Body := .ok "<html>gone</html>" } "<html>gone</html>"
      (mapMemcache_faithful "ssr:") rfl rfl rfl rfl).2.1⟩

/-- C8, amended: in the scenario (bot list `["Googlebot"]`, headless parameter `headless`,
override disabled, a request of family `Googlebot` with an empty query that misses the
cache) the request is routed to the render proxy, and the URL the render backend is called
with is the backend base, `/ssr?url=`, and the escaped request URL, in which the query
reads `%3Fheadless%3D`; so it contains `%3Fheadless%3D`, and the escaped URL has no `&`
and no `=` in it. -/
theorem C8_scenario_render_url {σ : Type} (ssr : SSR σ) (client : Client)
    (next : Handler σ) (c c2 : σ) (r : http.Request) (e : String)
    (hbots : ssr.UserAgents = ["Googlebot"])
    (hheadless : ssr.HeadlessParam = "headless")
    (hoverride : ssr.OverrideParam = "")
    (hfamily : ssr.Parser r.UserAgent = "Googlebot")
    (hquery : r.URL.RawQuery = "")
    (hget : ssr.Cache.Get c r.URL.String = (.error e, c2)) :
    ssr.Middleware client next (World.start c) r = ssr.ServeHTTP client (World.start c) r
    ∧ (ssr.ServeHTTP client (World.start c) r).trace.filter Effect.isClientGet
        = [.clientGet ssr.Timeout (ssr.renderURL r)]
    ∧ ssr.renderURL r
        = ssr.Puppeteer ++ "/ssr?url=" ++ url.QueryEscape r.URL.beforeQuery
            ++ "%3Fheadless%3D" ++ url.QueryEscape r.URL.afterQuery
    ∧ strings.Contains (ssr.renderURL r) "%3Fheadless%3D" = true
    ∧ (∀ x ∈ (url.QueryEscape (ssr.renderTarget r).String).data, x ≠ '&' ∧ x ≠ '=') := by
  have hq : r.URL.Query = [] := by
    unfold url.URL.Query
    rw [hquery]
    rfl
  have hurl : ssr.renderURL r
      = ssr.Puppeteer ++ "/ssr?url=" ++ url.QueryEscape r.URL.beforeQuery
          ++ "%3Fheadless%3D" ++ url.QueryEscape r.URL.afterQuery := by
    have henc : (ssr.renderQuery r).Encode = "headless=" := by
      unfold SSR.renderQuery
      rw [hq, hheadless, hoverride]
      decide
    have hne : (("headless=" : String) != "") = true := by decide
    have hesc : url.QueryEscape ("?" ++ "headless=") = "%3Fheadless%3D" := by decide
    unfold SSR.renderURL SSR.renderTarget url.URL.String
    simp only [henc, hne, Bool.or_true, if_true]
    rw [url.QueryEscape_append, url.QueryEscape_append, hesc]
    apply String.ext
    simp [String.data_append, List.append_assoc]
  refine ⟨?_, SSR.ServeHTTP_miss_clientGet ssr client c c2 r e hget, hurl, ?_,
    fun x hx => ⟨(url.escapeBytes_safe _ x hx).1, (url.escapeBytes_safe _ x hx).2.1⟩⟩
  · have h1 : ssr.IsHeadless r = false := by
      unfold SSR.IsHeadless
      rw [hq]
      rfl
    have h2 : ssr.IsBot r = true := by
      unfold SSR.IsBot
      rw [hoverride, hfamily, hbots]
      simp [SSR.matchFamily]
    unfold SSR.Middleware
    simp [h1, h2]
  · rw [hurl]
    exact strings.Contains_infix _ _ _

/-- C8, as stated, fails: in the scenario the render backend is called with
`https://pptraas.com/ssr?url=%2Fpage%3Fheadless%3D`, which does not contain `&headless=`. -/
theorem C8_counterexample :
    (scenarioSSR.ServeHTTP (answering 200 "<html>ok</html>") (World.start [])
        scenarioRequest).trace
      = [ .cacheGet "/page",
          .clientGet (Second * 30) "https://pptraas.com/ssr?url=%2Fpage%3Fheadless%3D",
          .cachePut "/page" Hour "<html>ok</html>" ]
    ∧ strings.Contains "https://pptraas.com/ssr?url=%2Fpage%3Fheadless%3D" "&headless="
        = false := by
  decide

/-- Witness of C8: the scenario. -/
theorem C8_scenario_render_url_witness :
    scenarioSSR.Middleware (answering 200 "<html>ok</html>") application (World.start [])
        scenarioRequest
      = scenarioSSR.ServeHTTP (answering 200 "<html>ok</html>") (World.start [])
          scenarioRequest
    ∧ strings.Contains (scenarioSSR.renderURL scenarioRequest) "%3Fheadless%3D" = true :=
  ⟨(C8_scenario_render_url scenarioSSR (answering 200 "<html>ok</html>") application [] []
      scenarioRequest ErrCacheMiss rfl rfl rfl rfl rfl rfl).1,
    (C8_scenario_render_url scenarioSSR (answering 200 "<html>ok</html>") application [] []
      scenarioRequest ErrCacheMiss rfl rfl rfl rfl rfl rfl).2.2.2.1⟩

/-- C9, amended: when the cache lookup fails, and the override is disabled or its name is
not the name of the headless parameter, the render backend is called with the backend
base, `/ssr?url=`, and the escaped string of the mutated URL; the mutated URL is the
request URL with a new query, and in its parsed query the headless parameter has the one
value `""`, the override parameter (when there is one) does not occur, and every other key
has the values it has in the request.  The raw query and the name of the headless
parameter are byte strings, as every Go string is. -/
theorem C9_render_url {σ : Type} (ssr : SSR σ) (client : Client) (c c2 : σ)
    (r : http.Request) (e : String)
    (hget : ssr.Cache.Get c r.URL.String = (.error e, c2))
    (hnames : ssr.OverrideParam = "" ∨ ssr.HeadlessParam ≠ ssr.OverrideParam)
    (hquery : url.isBytes r.URL.RawQuery = true)
    (hname : url.isBytes ssr.HeadlessParam = true) :
    (ssr.ServeHTTP client (World.start c) r).trace.filter Effect.isClientGet
        = [.clientGet ssr.Timeout
            (ssr.Puppeteer ++ "/ssr?url=" ++ url.QueryEscape (ssr.renderTarget r).String)]
    ∧ (ssr.renderTarget r).beforeQuery = r.URL.beforeQuery
    ∧ (ssr.renderTarget r).ForceQuery = r.URL.ForceQuery
    ∧ (ssr.renderTarget r).afterQuery = r.URL.afterQuery
    ∧ (ssr.renderTarget r).RawQuery = (ssr.renderQuery r).Encode
    ∧ (ssr.renderTarget r).Query.lookup ssr.HeadlessParam = some [""]
    ∧ (ssr.OverrideParam ≠ "" →
        (ssr.renderTarget r).Query.lookup ssr.OverrideParam = none)
    ∧ (∀ k : String, k ≠ ssr.HeadlessParam →
        (ssr.OverrideParam ≠ "" → k ≠ ssr.OverrideParam) →
          (ssr.renderTarget r).Query.lookup k = r.URL.Query.lookup k) := by
  have hwf : (ssr.renderQuery r).WF := by
    have h1 : (r.URL.Query.Set ssr.HeadlessParam "").WF :=
      url.Values.WF_store _ _ _ (url.WF_parseQuery _ hquery) (by simp) hname
        (by
          intro x hx
          simp only [List.mem_singleton] at hx
          rw [hx]
          rfl)
    unfold SSR.renderQuery
    by_cases ho : ssr.OverrideParam = ""
    · simp only [ho, ne_eq, not_true_eq_false, if_false]
      exact h1
    · simp only [ne_eq, ho, not_false_eq_true, if_true]
      exact url.Values.WF_Del _ _ h1
  have hback : ∀ k, (ssr.renderTarget r).Query.lookup k = (ssr.renderQuery r).lookup k :=
    fun k => url.parseQuery_Encode_lookup _ hwf k
  refine ⟨SSR.ServeHTTP_miss_clientGet ssr client c c2 r e hget, rfl, rfl, rfl, rfl,
    ?_, ?_, ?_⟩
  · rw [hback]
    unfold SSR.renderQuery
    by_cases ho : ssr.OverrideParam = ""
    · simp only [ho, ne_eq, not_true_eq_false, if_false]
      exact url.Values.lookup_store_self _ _ _
    · have hne : ssr.HeadlessParam ≠ ssr.OverrideParam := hnames.resolve_left ho
      simp only [ne_eq, ho, not_false_eq_true, if_true]
      rw [url.Values.lookup_Del_ne _ _ _ hne]
      exact url.Values.lookup_store_self _ _ _
  · intro ho
    rw [hback]
    unfold SSR.renderQuery
    simp only [ne_eq, ho, not_false_eq_true, if_true]
    exact url.Values.lookup_Del_self _ _
  · intro k hk hko
    rw [hback]
    unfold SSR.renderQuery
    by_cases ho : ssr.OverrideParam = ""
    · simp only [ho, ne_eq, not_true_eq_false, if_false]
      exact url.Values.lookup_store_ne _ _ _ _ hk
    · simp only [ne_eq, ho, not_false_eq_true, if_true]
      rw [url.Values.lookup_Del_ne _ _ _ (hko ho)]
      exact url.Values.lookup_store_ne _ _ _ _ hk

/-- C9, as stated, fails: when the headless parameter has the name of the override
parameter, the headless parameter is set and then deleted again, and the render backend is
called with the URL of a page whose query has no headless parameter. -/
theorem C9_counterexample :
    clashingSSR.HeadlessParam = "ssr"
    ∧ clashingSSR.OverrideParam = "ssr"
    ∧ (clashingSSR.renderTarget scenarioRequest).Query.lookup clashingSSR.HeadlessParam
        = none
    ∧ (clashingSSR.ServeHTTP (answering 200 "<html>ok</html>") (World.start [])
          scenarioRequest).trace
        = [ .cacheGet "/page",
            .clientGet (Second * 30) "https://pptraas.com/ssr?url=%2Fpage",
            .cachePut "/page" Hour "<html>ok</html>" ] := by
  decide

/-- Witness of C9: the default configuration and a request with the override parameter
and two more parameters. -/
theorem C9_render_url_witness :
    (defaultSSR.ServeHTTP (failing "unreachable") (World.start [])
        (pageRequest "ssr=1&b=2&a=x+y" "Mozilla/5.0")).trace.filter Effect.isClientGet
      = [.clientGet defaultSSR.Timeout
          (defaultSSR.Puppeteer ++ "/ssr?url="
            ++ url.QueryEscape
              (defaultSSR.renderTarget (pageRequest "ssr=1&b=2&a=x+y" "Mozilla/5.0")).String)]
    ∧ (defaultSSR.renderTarget (pageRequest "ssr=1&b=2&a=x+y" "Mozilla/5.0")).Query.lookup
        defaultSSR.HeadlessParam = some [""]
    ∧ (defaultSSR.renderTarget (pageRequest "ssr=1&b=2&a=x+y" "Mozilla/5.0")).Query.lookup
        defaultSSR.OverrideParam = none
    ∧ (defaultSSR.renderTarget (pageRequest "ssr=1&b=2&a=x+y" "Mozilla/5.0")).Query.lookup
        "a"
      = (pageRequest "ssr=1&b=2&a=x+y" "Mozilla/5.0").URL.Query.lookup "a" :=
  ⟨(C9_render_url defaultSSR (failing "unreachable") [] []
      (pageRequest "ssr=1&b=2&a=x+y" "Mozilla/5.0") ErrCacheMiss rfl
      (Or.inr (by decide)) (by decide) (by decide)).1,
    (C9_render_url defaultSSR (failing "unreachable") [] []
      (pageRequest "ssr=1&b=2&a=x+y" "Mozilla/5.0") ErrCacheMiss rfl
      (Or.inr (by decide)) (by decide) (by decide)).2.2.2.2.2.1,
    (C9_render_url defaultSSR (failing "unreachable") [] []
      (pageRequest "ssr=1&b=2&a=x+y" "Mozilla/5.0") ErrCacheMiss rfl
      (Or.inr (by decide)) (by decide) (by decide)).2.2.2.2.2.2.1 (by decide),
    (C9_render_url defaultSSR (failing "unreachable") [] []
      (pageRequest "ssr=1&b=2&a=x+y" "Mozilla/5.0") ErrCacheMiss rfl
      (Or.inr (by decide)) (by decide) (by decide)).2.2.2.2.2.2.2 "a" (by decide)
        (fun _ => by decide)⟩

/-- C10: the effects of one `ServeHTTP` call contain exactly one cache read, at most one
call of the render backend and at most one cache write; when the lookup fails and the
backend answers with a body `b` that is read in full, there is exactly one backend call
and exactly one `Put`, with the string of the incoming URL as key (the key of the `Get`),
the configured expiration and `b` as data. -/
theorem C10_effects {σ : Type} (ssr : SSR σ) (client : Client) (c : σ)
    (r : http.Request) :
    (ssr.ServeHTTP client (World.start c) r).trace.countP Effect.isCacheGet = 1
    ∧ (ssr.ServeHTTP client (World.start c) r).trace.filter Effect.isCacheGet
        = [.cacheGet r.URL.String]
    ∧ (ssr.ServeHTTP client (World.start c) r).trace.countP Effect.isClientGet ≤ 1
    ∧ (ssr.ServeHTTP client (World.start c) r).trace.countP Effect.isCachePut ≤ 1
    ∧ (∀ (e : String) (c2 : σ) (resp : http.Response) (b : String),
        ssr.Cache.Get c r.URL.String = (.error e, c2) →
        client ssr.Timeout (ssr.renderURL r) = .ok resp →
        resp.Body = .ok b →
          (ssr.ServeHTTP client (World.start c) r).trace.filter Effect.isClientGet
              = [.clientGet ssr.Timeout (ssr.renderURL r)]
          ∧ (ssr.ServeHTTP client (World.start c) r).trace.filter Effect.isCachePut
              = [.cachePut r.URL.String ssr.Expiration b]) := by
  obtain ⟨m1, m2, m3, m4, m5, m6⟩ := SSR.missTrace_counts ssr r
  have hlast : ∀ (e : String) (c2 : σ) (resp : http.Response) (b : String),
      ssr.Cache.Get c r.URL.String = (.error e, c2) →
      client ssr.Timeout (ssr.renderURL r) = .ok resp →
      resp.Body = .ok b →
        (ssr.ServeHTTP client (World.start c) r).trace.filter Effect.isClientGet
            = [.clientGet ssr.Timeout (ssr.renderURL r)]
        ∧ (ssr.ServeHTTP client (World.start c) r).trace.filter Effect.isCachePut
            = [.cachePut r.URL.String ssr.Expiration b] := by
    intro e c2 resp b hget hcl hb
    rw [SSR.ServeHTTP_rendered ssr client (World.start c) r e c2 resp b hget hcl hb]
    simp [World.start, List.filter_append, m5, m6, List.filter_cons, Effect.isClientGet,
      Effect.isCachePut]
  refine ⟨?_, ?_, ?_, ?_, hlast⟩
  all_goals
    rcases SSR.ServeHTTP_cases ssr client (World.start c) r with
      ⟨data, c2, hget⟩ | ⟨e, c2, err, hget, hcl⟩ | ⟨e, c2, resp, err, hget, hcl, hb⟩
        | ⟨e, c2, resp, data, hget, hcl, hb⟩
  all_goals
    first
      | rw [SSR.ServeHTTP_hit ssr client (World.start c) r data c2 hget]
      | rw [SSR.ServeHTTP_getError ssr client (World.start c) r e c2 err hget hcl]
      | rw [SSR.ServeHTTP_readError ssr client (World.start c) r e c2 resp err hget hcl hb]
      | rw [SSR.ServeHTTP_rendered ssr client (World.start c) r e c2 resp data hget hcl hb]
  all_goals
    cases hv : ssr.Verbose <;>
      simp [World.start, List.countP_append, List.filter_append, m1, m2, m3, m4, m5, m6,
        List.countP_cons, List.filter_cons, Effect.isCacheGet, Effect.isClientGet,
        Effect.isCachePut]

/-- Witness of C10: the scenario; the page is rendered and stored under `/page`. -/
theorem C10_effects_witness :
    (scenarioSSR.ServeHTTP (answering 200 "<html>ok</html>") (World.start [])
        scenarioRequest).trace.filter Effect.isCachePut
      = [.cachePut scenarioRequest.URL.String scenarioSSR.Expiration "<html>ok</html>"] :=
  ((C10_effects scenarioSSR (answering 200 "<html>ok</html>") [] scenarioRequest).2.2.2.2
    ErrCacheMiss [] { StatusCode := 200, Body := .ok "<html>ok</html>" } "<html>ok</html>"
    rfl rfl rfl).2

end ssr
